import Mathlib

/-!
Verification of file_lister.c, a directory listing emitted as JSON.

A shallow embedding of `src/file_lister.c`.  Text is modelled as lists of bytes
(`char` values seen as `unsigned char`), standard output as the list of bytes
written, the platform services (directory enumeration, owner lookup, timestamp
decoding) as data carried by each enumerated record, and the reused `ownerName`
stack buffer as explicit state threaded through the loop of `main`.
-/

namespace FileLister

set_option autoImplicit false

/-! ## Bytes, C strings and printf conversions -/

/-- One `char`, seen through `(unsigned char)`. -/
abbrev Byte := Fin 256

/-- The byte of an ASCII character of a source literal. -/
def charByte (c : Char) : Byte := ⟨c.toNat % 256, Nat.mod_lt _ (by decide)⟩

/-- The bytes of a string literal of the source (without its terminator). -/
def bytes (s : String) : List Byte := s.toList.map charByte

/-- The C string stored at the start of a memory region: the bytes before the
first NUL.  The end of the list stands for a terminator as well. -/
def cstr (m : List Byte) : List Byte := m.takeWhile (fun b => b ≠ 0)

/-- Zero padding on the left up to a minimal field width (`%0w...`). -/
def padZero (w : Nat) (ds : List Byte) : List Byte :=
  List.replicate (w - ds.length) (charByte '0') ++ ds

/-- Decimal digits of a natural number. -/
def decimal (n : Nat) : List Byte := (Nat.toDigits 10 n).map charByte

/-- The conversions `%d` and `%lld` of a signed integer. -/
def fmt_d (v : Int) : List Byte :=
  if v < 0 then charByte '-' :: decimal v.natAbs else decimal v.toNat

/-- The conversion `%0wd` of a non-negative integer (the `WORD` fields of a
`SYSTEMTIME`, promoted to `int`). -/
def fmt_0d (w : Nat) (v : Nat) : List Byte := padZero w (decimal v)

/-- The conversion `%04x`: lowercase hexadecimal, zero padded to four digits. -/
def fmt_04x (v : Nat) : List Byte := padZero 4 ((Nat.toDigits 16 v).map charByte)

/-- Value of type `long long` holding the 64-bit pattern of an integer
(two's complement, as on the x86 targets of `windows.h`). -/
def toLongLong (v : Int) : Int := (v + 2 ^ 63) % 2 ^ 64 - 2 ^ 63

/-- Value of type `int` holding the 32-bit pattern of an integer (two's
complement, as on the x86 targets of `windows.h`): 2147483648 is 2^31 and
4294967296 is 2^32. -/
def toInt (v : Int) : Int := (v + 2147483648) % 4294967296 - 2147483648

/-! ## print_json_string (lines 9-27) -/

/-- Body of the `switch` of `print_json_string` for one non-NUL character. -/
def escapeChar (c : Byte) : List Byte :=
  if c = 34 then bytes "\\\""
  else if c = 92 then bytes "\\\\"
  else if c = 8 then bytes "\\b"
  else if c = 12 then bytes "\\f"
  else if c = 10 then bytes "\\n"
  else if c = 13 then bytes "\\r"
  else if c = 9 then bytes "\\t"
  else if c.val < 32 then bytes "\\u" ++ fmt_04x c.val
  else [c]

/-- Output of `print_json_string(str)`, where `str` is the memory starting at
the pointer: the loop stops at the first NUL. -/
def print_json_string : List Byte → List Byte
  | [] => []
  | c :: rest => if c = 0 then [] else escapeChar c ++ print_json_string rest

/-! ## GetFileOwner (lines 29-53) -/

/-- What the security services answer for one file: `GetNamedSecurityInfo` does
not return `ERROR_SUCCESS`; or it does and the second `LookupAccountSid` returns
`FALSE`; or both succeed and fill `lpDomain` and `lpName`. -/
inductive OwnerLookup where
  | securityInfoFailed : OwnerLookup
  | lookupFailed : OwnerLookup
  | resolved (lpDomain lpName : List Byte) : OwnerLookup
  deriving DecidableEq, Repr

/-- The call `strcpy(dst, src)`: the string and its terminator overwrite the
start of `dst`. -/
def strcpy (dst src : List Byte) : List Byte :=
  cstr src ++ [0] ++ dst.drop ((cstr src).length + 1)

/-- The call `_snprintf(buffer, count, ...)` of the Microsoft runtime, given the
formatted text: when the text is shorter than `count` it is stored with a
terminator, otherwise its first `count` characters are stored and no
terminator is written. -/
def _snprintf (buffer : List Byte) (count : Nat) (formatted : List Byte) : List Byte :=
  if formatted.length < count then
    formatted ++ [0] ++ buffer.drop (formatted.length + 1)
  else
    formatted.take count ++ buffer.drop count

/-- The text formatted by `"%s\\\\%s"` (line 46): the C literal denotes the
characters percent, s, backslash, backslash, percent, s. -/
def ownerFormat (lpDomain lpName : List Byte) : List Byte :=
  cstr lpDomain ++ bytes "\\\\" ++ cstr lpName

/-- Contents of the `ownerName` buffer after `GetFileOwner`, given its contents
before the call and the answer of the security services. -/
def GetFileOwner (answer : OwnerLookup) (ownerName : List Byte) (bufferSize : Nat) :
    List Byte :=
  let ownerName := strcpy ownerName (bytes "Unknown")
  match answer with
  | OwnerLookup.securityInfoFailed => ownerName
  | OwnerLookup.lookupFailed => ownerName
  | OwnerLookup.resolved lpDomain lpName =>
      _snprintf ownerName bufferSize (ownerFormat lpDomain lpName)

/-! ## main (lines 55-123) -/

/-- The fields of `SYSTEMTIME` that are printed. -/
structure SYSTEMTIME where
  wYear : Nat
  wMonth : Nat
  wDay : Nat
  wHour : Nat
  wMinute : Nat
  wSecond : Nat
  deriving DecidableEq, Repr

/-- One record yielded by `FindFirstFile` / `FindNextFile`, together with what
the platform answers for it during the loop body: the three decoded
timestamps (`FileTimeToSystemTime`), the owner lookup, and the memory that
follows the `ownerName` array (only seen by a read that runs past its end). -/
structure WIN32_FIND_DATA where
  dwFileAttributes : Nat
  nFileSizeHigh : Nat
  nFileSizeLow : Nat
  cFileName : List Byte
  created : SYSTEMTIME
  modified : SYSTEMTIME
  accessed : SYSTEMTIME
  owner : OwnerLookup
  beyond : List Byte
  deriving DecidableEq, Repr

/-- Value of winnt.h. -/
def FILE_ATTRIBUTE_READONLY : Nat := 0x1
/-- Value of winnt.h. -/
def FILE_ATTRIBUTE_HIDDEN : Nat := 0x2
/-- Value of winnt.h. -/
def FILE_ATTRIBUTE_SYSTEM : Nat := 0x4
/-- Value of winnt.h. -/
def FILE_ATTRIBUTE_DIRECTORY : Nat := 0x10

/-- The call `strcmp` (`_tcscmp` without `UNICODE`): zero exactly when the two C
strings are equal. -/
def _tcscmp : List Byte → List Byte → Int
  | [], [] => 0
  | [], b :: _ => if b = 0 then 0 else -1
  | a :: _, [] => if a = 0 then 0 else 1
  | a :: as, b :: bs =>
      if a = b then (if a = 0 then 0 else _tcscmp as bs)
      else if a < b then -1 else 1

/-- Line 82: `isDir` is non-zero exactly when the directory bit is set. -/
def isDir (fd : WIN32_FIND_DATA) : Bool :=
  fd.dwFileAttributes &&& FILE_ATTRIBUTE_DIRECTORY != 0

/-- Line 83: `isDir ? 0 : ((long long)nFileSizeHigh << 32) + nFileSizeLow`. -/
def fileSize (fd : WIN32_FIND_DATA) : Int :=
  if isDir fd then 0
  else toLongLong (toLongLong ((fd.nFileSizeHigh : Int) * 2 ^ 32) + (fd.nFileSizeLow : Int))

/-- Line 90: the argument of `%s` in the type line. -/
def typeText (fd : WIN32_FIND_DATA) : List Byte :=
  if isDir fd then bytes "directory" else bytes "file"

/-- Lines 93-95: the argument of `%s` in the size_readable line. -/
def sizeReadable (fd : WIN32_FIND_DATA) : List Byte :=
  if isDir fd then bytes "N/A"
  else if fileSize fd < 1024 then bytes "bytes"
  else if fileSize fd < 1048576 then bytes "KB"
  else bytes "MB"

/-- Lines 109-111: `(attributes & flag) ? "true" : "false"`. -/
def flagText (attributes flag : Nat) : List Byte :=
  if attributes &&& flag != 0 then bytes "true" else bytes "false"

/-- The format `"%02d/%02d/%04d %02d:%02d:%02d"` of lines 99-107. -/
def timeText (t : SYSTEMTIME) : List Byte :=
  fmt_0d 2 t.wMonth ++ bytes "/" ++ fmt_0d 2 t.wDay ++ bytes "/" ++ fmt_0d 4 t.wYear ++
    bytes " " ++ fmt_0d 2 t.wHour ++ bytes ":" ++ fmt_0d 2 t.wMinute ++ bytes ":" ++
    fmt_0d 2 t.wSecond

/-- Lines 86-89. -/
def nameLines (fd : WIN32_FIND_DATA) : List Byte :=
  bytes "  \x7b\n" ++ bytes "    \"name\": \"" ++ print_json_string fd.cFileName ++ bytes "\",\n"

/-- Line 90. -/
def typeLine (fd : WIN32_FIND_DATA) : List Byte :=
  bytes "    \"type\": \"" ++ typeText fd ++ bytes "\",\n"

/-- Line 91. -/
def sizeLine (fd : WIN32_FIND_DATA) : List Byte :=
  bytes "    \"size\": " ++ fmt_d (fileSize fd) ++ bytes ",\n"

/-- Lines 92-95. -/
def sizeReadableLine (fd : WIN32_FIND_DATA) : List Byte :=
  bytes "    \"size_readable\": \"" ++ sizeReadable fd ++ bytes "\",\n"

/-- Lines 96-98: `ownerMem` is the memory starting at `ownerName`. -/
def ownerLines (ownerMem : List Byte) : List Byte :=
  bytes "    \"owner\": \"" ++ print_json_string ownerMem ++ bytes "\",\n"

/-- Lines 99-107. -/
def timeLines (fd : WIN32_FIND_DATA) : List Byte :=
  bytes "    \"created\": \"" ++ timeText fd.created ++ bytes "\",\n" ++
  bytes "    \"modified\": \"" ++ timeText fd.modified ++ bytes "\",\n" ++
  bytes "    \"accessed\": \"" ++ timeText fd.accessed ++ bytes "\",\n"

/-- Lines 108-113. -/
def attributeLines (fd : WIN32_FIND_DATA) : List Byte :=
  bytes "    \"attributes\": \x7b\n" ++
  bytes "      \"hidden\": " ++ flagText fd.dwFileAttributes FILE_ATTRIBUTE_HIDDEN ++ bytes ",\n" ++
  bytes "      \"system\": " ++ flagText fd.dwFileAttributes FILE_ATTRIBUTE_SYSTEM ++ bytes ",\n" ++
  bytes "      \"readonly\": " ++ flagText fd.dwFileAttributes FILE_ATTRIBUTE_READONLY ++ bytes "\n" ++
  bytes "    \x7d\n" ++
  bytes "  \x7d"

/-- Lines 86-113: the text of one entry object, `ownerName` being the buffer
as `GetFileOwner` left it. -/
def printEntry (fd : WIN32_FIND_DATA) (ownerName : List Byte) : List Byte :=
  nameLines fd ++ typeLine fd ++ sizeLine fd ++ sizeReadableLine fd ++
    ownerLines (ownerName ++ fd.beyond) ++ timeLines fd ++ attributeLines fd

/-- The local variables of `main` that live across iterations, and the bytes
written to standard output so far. -/
structure MainState where
  out : List Byte
  fileCount : Int
  ownerName : List Byte
  deriving DecidableEq, Repr

/-- Lines 67-68: the test that guards the loop body. -/
def notDotEntry (fd : WIN32_FIND_DATA) : Bool :=
  _tcscmp fd.cFileName (bytes ".") != 0 && _tcscmp fd.cFileName (bytes "..") != 0

/-- Lines 67-116: one iteration of the `do ... while` loop.  The counter is an
`int`: `fileCount++` (line 115) keeps its 32-bit pattern. -/
def loopBody (s : MainState) (fd : WIN32_FIND_DATA) : MainState :=
  if notDotEntry fd then
    let sep := if s.fileCount > 0 then bytes ",\n" else []
    let ownerName := GetFileOwner fd.owner s.ownerName 256
    { out := s.out ++ sep ++ printEntry fd ownerName
      fileCount := toInt (s.fileCount + 1)
      ownerName := ownerName }
  else s

/-- State before `FindFirstFile` (line 62); `ownerName` is the uninitialised
content of the array. -/
def initState (ownerName : List Byte) : MainState :=
  { out := bytes "\x7b\n\"files\": [\n", fileCount := 0, ownerName := ownerName }

/-- State after the loop (line 119).  The enumeration is the list of records
yielded by `FindFirstFile` and the successful calls of `FindNextFile`; the
empty list stands for `FindFirstFile` returning `INVALID_HANDLE_VALUE`. -/
def runLoop (ownerName : List Byte) (enumeration : List WIN32_FIND_DATA) : MainState :=
  enumeration.foldl loopBody (initState ownerName)

/-- Line 121: the `int` counter printed with `%d`. -/
def footer (fileCount : Int) : List Byte :=
  bytes "\n],\n\"total_files\": " ++ fmt_d fileCount ++ bytes "\n\x7d\n"

/-- The program: the bytes written to standard output and the value returned. -/
def main (ownerName : List Byte) (enumeration : List WIN32_FIND_DATA) : List Byte × Int :=
  let s := runLoop ownerName enumeration
  (s.out ++ footer s.fileCount, 0)

/-! ## Reference definitions used to state the properties -/

/-- Lowercase hexadecimal digit of a value below 16. -/
def hexLower (d : Nat) : Byte :=
  if d < 10 then charByte '0' + Fin.ofNat d else charByte 'a' + Fin.ofNat (d - 10)

/-- JSON escaping of one byte, as the specification words it: quote and
backslash get a backslash, bytes 8, 12, 10, 13, 9 their short escape, every
other byte below 32 the six characters of its u-escape with two zero digits
and two lowercase hexadecimal digits, every other byte is kept. -/
def specEscape (b : Byte) : List Byte :=
  if b = charByte '"' then [charByte '\\', charByte '"']
  else if b = charByte '\\' then [charByte '\\', charByte '\\']
  else if b = 8 then [charByte '\\', charByte 'b']
  else if b = 12 then [charByte '\\', charByte 'f']
  else if b = 10 then [charByte '\\', charByte 'n']
  else if b = 13 then [charByte '\\', charByte 'r']
  else if b = 9 then [charByte '\\', charByte 't']
  else if b.val < 32 then
    [charByte '\\', charByte 'u', charByte '0', charByte '0',
      hexLower (b.val / 16), hexLower (b.val % 16)]
  else [b]

/-- Value of a hexadecimal digit, lowercase or uppercase. -/
def hexVal (b : Byte) : Option Nat :=
  if 48 ≤ b.val ∧ b.val ≤ 57 then some (b.val - 48)
  else if 97 ≤ b.val ∧ b.val ≤ 102 then some (b.val - 87)
  else if 65 ≤ b.val ∧ b.val ≤ 70 then some (b.val - 55)
  else none

/-- Standard unescaping of the content of a JSON string, byte by byte: the
two-character escapes of quote, backslash, b, f, n, r, t, and the u-escape
with two zero digits decoded to one byte; every other byte is copied.  It is
strict: a raw quote, a raw byte below 32, an unknown or a cut escape make it
fail. -/
def jsonUnescape : List Byte → Option (List Byte)
  | [] => some []
  | c :: rest =>
    if c = charByte '\\' then
      match rest with
      | [] => none
      | e :: rest2 =>
        if e = charByte '"' then (jsonUnescape rest2).map (List.cons (charByte '"'))
        else if e = charByte '\\' then (jsonUnescape rest2).map (List.cons (charByte '\\'))
        else if e = charByte 'b' then (jsonUnescape rest2).map (List.cons 8)
        else if e = charByte 'f' then (jsonUnescape rest2).map (List.cons 12)
        else if e = charByte 'n' then (jsonUnescape rest2).map (List.cons 10)
        else if e = charByte 'r' then (jsonUnescape rest2).map (List.cons 13)
        else if e = charByte 't' then (jsonUnescape rest2).map (List.cons 9)
        else if e = charByte 'u' then
          match rest2 with
          | z1 :: z2 :: h :: l :: rest3 =>
            if z1 = charByte '0' ∧ z2 = charByte '0' then
              match hexVal h, hexVal l with
              | some a, some b => (jsonUnescape rest3).map (List.cons (Fin.ofNat (16 * a + b)))
              | _, _ => none
            else none
          | _ => none
        else none
    else if c = charByte '"' ∨ c.val < 32 then none
    else (jsonUnescape rest).map (List.cons c)

/-- The entry objects written by the loop, in order: each enumerated record
that passes the test of lines 67-68, paired with the content of `ownerName`
when its object is printed. -/
def emitted : List Byte → List WIN32_FIND_DATA → List (WIN32_FIND_DATA × List Byte)
  | _, [] => []
  | ownerName, fd :: rest =>
    if notDotEntry fd then
      (fd, GetFileOwner fd.owner ownerName 256) ::
        emitted (GetFileOwner fd.owner ownerName 256) rest
    else emitted ownerName rest

/-- Text of one written entry object. -/
def objectText (p : WIN32_FIND_DATA × List Byte) : List Byte := printEntry p.1 p.2

/-- A document whose files array holds the given object texts, separated by
a comma and a newline, and whose total_files value is the given number. -/
def document (objects : List (List Byte)) (total : Nat) : List Byte :=
  bytes "\x7b\n\"files\": [\n" ++ (bytes ",\n").intercalate objects ++
    bytes "\n],\n\"total_files\": " ++ decimal total ++ bytes "\n\x7d\n"

/-- The text written between the opening and the closing of the files array
for the given object texts, the counter having the given value before the
first of them: each object is preceded by the separator exactly when the
counter is positive, and the counter advances as an `int` does. -/
def arrayText (count : Int) : List (List Byte) → List Byte
  | [] => []
  | object :: rest =>
    (if count > 0 then bytes ",\n" else []) ++ object ++ arrayText (toInt (count + 1)) rest

/-- The name of a record is neither "." nor "..". -/
def properName (fd : WIN32_FIND_DATA) : Prop :=
  cstr fd.cFileName ≠ bytes "." ∧ cstr fd.cFileName ≠ bytes ".."

instance (fd : WIN32_FIND_DATA) : Decidable (properName fd) := by
  unfold properName; infer_instance

/-- The text with its whitespace (space, tab, newline, carriage return)
removed. -/
def stripWhitespace (text : List Byte) : List Byte :=
  text.filter (fun b => !(b = 32 || b = 9 || b = 10 || b = 13))

/-- The character of a decimal digit. -/
def digit (d : Nat) : Byte := charByte (Nat.digitChar d)

/-- Two decimal digits of a number below 100, with a leading zero. -/
def twoDigits (n : Nat) : List Byte := [digit (n / 10), digit (n % 10)]

/-- Four decimal digits of a number below 10000, with leading zeros. -/
def fourDigits (n : Nat) : List Byte :=
  [digit (n / 1000), digit (n / 100 % 10), digit (n / 10 % 10), digit (n % 10)]

/-- Five decimal digits of a number below 100000. -/
def fiveDigits (n : Nat) : List Byte :=
  [digit (n / 10000), digit (n / 1000 % 10), digit (n / 100 % 10), digit (n / 10 % 10),
    digit (n % 10)]

/-- The shape MM/DD/YYYY HH:MM:SS of a civil timestamp: 19 characters. -/
def civilText (t : SYSTEMTIME) : List Byte :=
  twoDigits t.wMonth ++ bytes "/" ++ twoDigits t.wDay ++ bytes "/" ++ fourDigits t.wYear ++
    bytes " " ++ twoDigits t.wHour ++ bytes ":" ++ twoDigits t.wMinute ++ bytes ":" ++
    twoDigits t.wSecond

/-- A civil timestamp as the platform decoder yields it, apart from the year:
month 1-12, day 1-31, hour 0-23, minute and second 0-59. -/
def civilFields (t : SYSTEMTIME) : Prop :=
  1 ≤ t.wMonth ∧ t.wMonth ≤ 12 ∧ 1 ≤ t.wDay ∧ t.wDay ≤ 31 ∧ t.wHour ≤ 23 ∧
    t.wMinute ≤ 59 ∧ t.wSecond ≤ 59

instance (t : SYSTEMTIME) : Decidable (civilFields t) := by
  unfold civilFields; infer_instance

/-- An entry object with the keys name, type, size, size_readable, owner,
created, modified, accessed, attributes in this order, the attributes object
having the keys hidden, system, readonly in this order, and the given texts
as values. -/
def entryTemplate (vName vType vSize vReadable vOwner vCreated vModified vAccessed
    vHidden vSystem vReadonly : List Byte) : List Byte :=
  bytes "  \x7b\n" ++
  bytes "    \"name\": \"" ++ vName ++ bytes "\",\n" ++
  bytes "    \"type\": \"" ++ vType ++ bytes "\",\n" ++
  bytes "    \"size\": " ++ vSize ++ bytes ",\n" ++
  bytes "    \"size_readable\": \"" ++ vReadable ++ bytes "\",\n" ++
  bytes "    \"owner\": \"" ++ vOwner ++ bytes "\",\n" ++
  bytes "    \"created\": \"" ++ vCreated ++ bytes "\",\n" ++
  bytes "    \"modified\": \"" ++ vModified ++ bytes "\",\n" ++
  bytes "    \"accessed\": \"" ++ vAccessed ++ bytes "\",\n" ++
  bytes "    \"attributes\": \x7b\n" ++
  bytes "      \"hidden\": " ++ vHidden ++ bytes ",\n" ++
  bytes "      \"system\": " ++ vSystem ++ bytes ",\n" ++
  bytes "      \"readonly\": " ++ vReadonly ++ bytes "\n" ++
  bytes "    \x7d\n" ++
  bytes "  \x7d"

/-- The text can stand between two quotes as it is: it has no quote, no
backslash and no byte below 32. -/
def plainText (v : List Byte) : Prop := ∀ b ∈ v, b ≠ 34 ∧ b ≠ 92 ∧ 32 ≤ b.val

/-- The text is a decimal number: an optional minus sign and digits. -/
def numberText (v : List Byte) : Prop :=
  v ≠ [] ∧ ∀ b ∈ v, b = charByte '-' ∨ (48 ≤ b.val ∧ b.val ≤ 57)

/-- Lowercase hexadecimal digit character. -/
def isHexLowerDigit (b : Byte) : Bool :=
  (48 ≤ b.val && b.val ≤ 57) || (97 ≤ b.val && b.val ≤ 102)

/-- One unit of the content of a JSON string: a byte from 32 on that is neither
a quote nor a backslash, or a backslash followed by one of the characters
quote, backslash, b, f, n, r, t, or a backslash followed by u, two zeros and
two lowercase hexadecimal digits. -/
def isStringToken (t : List Byte) : Bool :=
  match t with
  | [b] => 32 ≤ b.val && b != 34 && b != 92
  | [a, e] => a = 92 && (e = 34 || e = 92 || e = 98 || e = 102 || e = 110 || e = 114 || e = 116)
  | [a, u, z1, z2, h, l] =>
      a = 92 && u = 117 && z1 = 48 && z2 = 48 && isHexLowerDigit h && isHexLowerDigit l
  | _ => false

/-! ## Sample records -/

/-- A timestamp used by the sample records. -/
def sampleTime : SYSTEMTIME :=
  { wYear := 2024, wMonth := 3, wDay := 9, wHour := 14, wMinute := 5, wSecond := 7 }

/-- The file `note.txt` of 2000 bytes owned by alice of CORP. -/
def noteTxt : WIN32_FIND_DATA :=
  { dwFileAttributes := 0x20, nFileSizeHigh := 0, nFileSizeLow := 2000,
    cFileName := bytes "note.txt", created := sampleTime, modified := sampleTime,
    accessed := sampleTime,
    owner := OwnerLookup.resolved (bytes "CORP") (bytes "alice"), beyond := [] }

/-- A file whose high size half is 2^31. -/
def hugeFile : WIN32_FIND_DATA :=
  { noteTxt with cFileName := bytes "huge.bin", nFileSizeHigh := 2147483648, nFileSizeLow := 0 }

/-- The directory `Logs`, reported with non-zero size halves. -/
def logsDir : WIN32_FIND_DATA :=
  { noteTxt with cFileName := bytes "Logs", dwFileAttributes := 0x10,
                 nFileSizeHigh := 3, nFileSizeLow := 4096 }

/-- A record with the given name, otherwise like `note.txt`. -/
def named (name : String) : WIN32_FIND_DATA := { noteTxt with cFileName := bytes name }

/-- A file named by the decimal digits of a number, otherwise like
`note.txt`. -/
def numbered (i : Nat) : WIN32_FIND_DATA := { noteTxt with cFileName := decimal i }

/-- A directory of 2147483648 (2^31) files, named 0, 1, 2, and so
on. -/
def bigDir : List WIN32_FIND_DATA := (List.range 2147483648).map numbered

/-- An arbitrary initial content of the 256 characters of `ownerName`. -/
def stackGarbage : List Byte := List.replicate 256 (charByte '#')

/-- A timestamp of the year 10000. -/
def farTime : SYSTEMTIME :=
  { wYear := 10000, wMonth := 1, wDay := 1, wHour := 0, wMinute := 0, wSecond := 0 }

/-- A file owned by an account whose domain has 200 characters and whose name
has 100, with the bytes X, Y and a NUL following `ownerName` in memory. -/
def longOwnerFile : WIN32_FIND_DATA :=
  { noteTxt with
    cFileName := bytes "shared.doc",
    owner := OwnerLookup.resolved (List.replicate 200 (charByte 'D'))
      (List.replicate 100 (charByte 'n')),
    beyond := bytes "XY" ++ [0] }

/-! ## Lemmas on bytes and C strings -/

theorem cstr_nil : cstr [] = [] := rfl

theorem cstr_cons_zero (m : List Byte) : cstr (0 :: m) = [] := by
  simp [cstr]

theorem cstr_cons_ne (c : Byte) (m : List Byte) (h : c ≠ 0) : cstr (c :: m) = c :: cstr m := by
  simp [cstr, h]

theorem zero_not_mem_cstr (m : List Byte) : (0 : Byte) ∉ cstr m := by
  intro h
  have := List.mem_takeWhile_imp h
  simp at this

theorem cstr_of_not_mem (m : List Byte) (h : (0 : Byte) ∉ m) : cstr m = m := by
  unfold cstr
  rw [List.takeWhile_eq_self_iff]
  intro x hx
  have : x ≠ 0 := fun h0 => h (h0 ▸ hx)
  simpa using this

theorem cstr_append_zero (a b : List Byte) (h : (0 : Byte) ∉ a) : cstr (a ++ 0 :: b) = a := by
  induction a with
  | nil => simp [cstr]
  | cons x xs ih =>
    have hx : x ≠ 0 := fun h0 => h (by simp [h0])
    have hxs : (0 : Byte) ∉ xs := fun h0 => h (by simp [h0])
    rw [List.cons_append, cstr_cons_ne _ _ hx, ih hxs]

theorem cstr_idem (m : List Byte) : cstr (cstr m) = cstr m :=
  cstr_of_not_mem _ (zero_not_mem_cstr m)

/-! ## Lemmas on print_json_string -/

set_option maxRecDepth 100000 in
theorem escapeChar_eq_spec : ∀ b : Byte, escapeChar b = specEscape b := by decide

theorem print_json_string_eq_join (s : List Byte) :
    print_json_string s = ((cstr s).map escapeChar).flatten := by
  induction s with
  | nil => rfl
  | cons c rest ih =>
    by_cases h : c = 0
    · subst h; simp [print_json_string, cstr_cons_zero]
    · simp [print_json_string, cstr_cons_ne _ _ h, h, ih]

theorem print_json_string_cstr (s : List Byte) :
    print_json_string (cstr s) = print_json_string s := by
  rw [print_json_string_eq_join, print_json_string_eq_join s, cstr_idem]

set_option maxRecDepth 100000 in
theorem hex_roundtrip : ∀ c : Byte, c.val < 32 →
    hexVal (hexLower (c.val / 16)) = some (c.val / 16) ∧
    hexVal (hexLower (c.val % 16)) = some (c.val % 16) ∧
    (Fin.ofNat (16 * (c.val / 16) + c.val % 16) : Byte) = c := by decide

theorem jsonUnescape_escapeChar (c : Byte) (rest : List Byte) :
    jsonUnescape (escapeChar c ++ rest) = (jsonUnescape rest).map (List.cons c) := by
  rw [escapeChar_eq_spec]
  unfold specEscape
  split_ifs with h1 h2 h3 h4 h5 h6 h7 h8
  · subst h1; rw [jsonUnescape.eq_def]; simp +decide
  · subst h2; rw [jsonUnescape.eq_def]; simp +decide
  · subst h3; rw [jsonUnescape.eq_def]; simp +decide
  · subst h4; rw [jsonUnescape.eq_def]; simp +decide
  · subst h5; rw [jsonUnescape.eq_def]; simp +decide
  · subst h6; rw [jsonUnescape.eq_def]; simp +decide
  · subst h7; rw [jsonUnescape.eq_def]; simp +decide
  · obtain ⟨ha, hb, hc⟩ := hex_roundtrip c h8
    rw [jsonUnescape.eq_def]
    simp +decide [ha, hb, hc]
  · rw [jsonUnescape.eq_def]
    simp [h1, h2, h8]

theorem jsonUnescape_print (s : List Byte) :
    jsonUnescape (print_json_string s) = some (cstr s) := by
  induction s with
  | nil => rfl
  | cons c rest ih =>
    by_cases h : c = 0
    · subst h; simp [print_json_string, cstr_cons_zero, jsonUnescape]
    · simp only [print_json_string, h, if_false]
      rw [jsonUnescape_escapeChar, ih, cstr_cons_ne _ _ h]
      rfl

/-! ## Properties of print_json_string -/

/-- C6: for every byte string, read up to its first NUL, `print_json_string`
writes the concatenation of the escapes of its bytes, where quote and
backslash are preceded by a backslash, bytes 8, 12, 10, 13, 9 become their
short escapes, every other byte below 32 becomes its six-character u-escape
with lowercase hexadecimal digits, and every other byte (127 and the bytes
from 128 on included) is written unchanged. -/
theorem C6_print_json_string_escapes (s : List Byte) :
    print_json_string s = ((cstr s).map specEscape).flatten := by
  rw [print_json_string_eq_join]
  congr 1
  exact List.map_congr_left (fun b _ => escapeChar_eq_spec b)

/-- C7: for every byte string without NUL, strict JSON unescaping of the
output of `print_json_string` succeeds and gives the string back; hence
`print_json_string` is injective on such strings. -/
theorem C7_print_json_string_roundtrip (s : List Byte) (h : (0 : Byte) ∉ s) :
    jsonUnescape (print_json_string s) = some s ∧
      ∀ t : List Byte, (0 : Byte) ∉ t → print_json_string s = print_json_string t → s = t := by
  have key : ∀ u : List Byte, (0 : Byte) ∉ u → jsonUnescape (print_json_string u) = some u :=
    fun u hu => by rw [jsonUnescape_print, cstr_of_not_mem u hu]
  refine ⟨key s h, fun t ht heq => ?_⟩
  have h1 := key s h
  rw [heq, key t ht] at h1
  exact (Option.some.inj h1).symm

/-- Witness of C7 on a string with a quote, a backslash, control bytes, byte 127
and a byte above 127. -/
theorem C7_print_json_string_roundtrip_witness :
    (0 : Byte) ∉ ([34, 92, 1, 10, 31, 127, 200] : List Byte) ∧
    (jsonUnescape (print_json_string [34, 92, 1, 10, 31, 127, 200]) =
        some [34, 92, 1, 10, 31, 127, 200] ∧
      ∀ t : List Byte, (0 : Byte) ∉ t →
        print_json_string [34, 92, 1, 10, 31, 127, 200] = print_json_string t →
        [34, 92, 1, 10, 31, 127, 200] = t) :=
  ⟨by decide, C7_print_json_string_roundtrip [34, 92, 1, 10, 31, 127, 200] (by decide)⟩

/-! ## Lemmas on the loop of main -/

theorem tcscmp_eq_zero_iff (a b : List Byte) : _tcscmp a b = 0 ↔ cstr a = cstr b := by
  induction a generalizing b with
  | nil =>
    cases b with
    | nil => simp [_tcscmp]
    | cons y ys =>
      by_cases hy : y = 0
      · subst hy; simp [_tcscmp, cstr_cons_zero, cstr_nil]
      · simp [_tcscmp, hy, cstr_cons_ne _ _ hy, cstr_nil]
  | cons x xs ih =>
    cases b with
    | nil =>
      by_cases hx : x = 0
      · subst hx; simp [_tcscmp, cstr_cons_zero, cstr_nil]
      · simp [_tcscmp, hx, cstr_cons_ne _ _ hx, cstr_nil]
    | cons y ys =>
      by_cases hxy : x = y
      · subst hxy
        by_cases hx : x = 0
        · subst hx; simp [_tcscmp, cstr_cons_zero]
        · simp [_tcscmp, hx, cstr_cons_ne _ _ hx, ih]
      · by_cases hx : x = 0
        · subst hx
          have hy : y ≠ 0 := fun h => hxy h.symm
          simp [_tcscmp, hxy, cstr_cons_zero, cstr_cons_ne _ _ hy]
          split_ifs <;> simp
        · by_cases hy : y = 0
          · subst hy
            simp [_tcscmp, hxy, cstr_cons_zero, cstr_cons_ne _ _ hx]
          · simp [_tcscmp, hxy, cstr_cons_ne _ _ hx, cstr_cons_ne _ _ hy]
            split_ifs <;> simp

theorem notDotEntry_iff (fd : WIN32_FIND_DATA) : notDotEntry fd = true ↔ properName fd := by
  unfold notDotEntry properName
  have h1 : cstr (bytes ".") = bytes "." := by decide
  have h2 : cstr (bytes "..") = bytes ".." := by decide
  simp [tcscmp_eq_zero_iff, h1, h2]

theorem intercalate_cons (sep x : List Byte) (xs : List (List Byte)) :
    sep.intercalate (x :: xs) = x ++ (xs.map (fun y => sep ++ y)).flatten := by
  induction xs generalizing x with
  | nil => simp [List.intercalate]
  | cons y ys ih =>
    have h := ih y
    simp only [List.intercalate] at h ⊢
    simp [List.intersperse, h]

theorem toInt_of_range (v : Int) (h0 : -2147483648 ≤ v) (h1 : v < 2147483648) :
    toInt v = v := by
  unfold toInt
  omega

theorem toInt_toInt_add (a b : Int) : toInt (toInt a + b) = toInt (a + b) := by
  unfold toInt
  omega

theorem toInt_idem (a : Int) : toInt (toInt a) = toInt a := by
  unfold toInt
  omega

theorem loopBody_of_notDot (s : MainState) (fd : WIN32_FIND_DATA) (h : notDotEntry fd = true) :
    loopBody s fd =
      { out := s.out ++ (if s.fileCount > 0 then bytes ",\n" else []) ++
          printEntry fd (GetFileOwner fd.owner s.ownerName 256)
        fileCount := toInt (s.fileCount + 1)
        ownerName := GetFileOwner fd.owner s.ownerName 256 } := by
  simp [loopBody, h]

theorem loopBody_of_dot (s : MainState) (fd : WIN32_FIND_DATA) (h : notDotEntry fd = false) :
    loopBody s fd = s := by
  simp [loopBody, h]

theorem foldl_fileCount (es : List WIN32_FIND_DATA) (s : MainState)
    (hr : toInt s.fileCount = s.fileCount) :
    (es.foldl loopBody s).fileCount =
      toInt (s.fileCount + ((emitted s.ownerName es).length : Int)) := by
  induction es generalizing s with
  | nil => simp [emitted, hr]
  | cons fd rest ih =>
    cases h : notDotEntry fd with
    | true =>
      rw [List.foldl_cons, ih _ (by rw [loopBody_of_notDot s fd h]; exact toInt_idem _),
        loopBody_of_notDot s fd h]
      simp only [emitted, h, if_true, List.length_cons]
      rw [toInt_toInt_add]
      congr 1
      push_cast
      omega
    | false =>
      rw [List.foldl_cons, loopBody_of_dot s fd h, ih s hr]
      simp [emitted, h]

theorem foldl_ownerName (es : List WIN32_FIND_DATA) (s t : MainState)
    (h : s.ownerName = t.ownerName) :
    (es.foldl loopBody s).ownerName = (es.foldl loopBody t).ownerName := by
  induction es generalizing s t with
  | nil => simpa using h
  | cons fd rest ih =>
    rw [List.foldl_cons, List.foldl_cons]
    apply ih
    cases hk : notDotEntry fd with
    | true => rw [loopBody_of_notDot s fd hk, loopBody_of_notDot t fd hk, h]
    | false => rw [loopBody_of_dot s fd hk, loopBody_of_dot t fd hk, h]

theorem foldl_out (es : List WIN32_FIND_DATA) (s : MainState) :
    (es.foldl loopBody s).out =
      s.out ++ arrayText s.fileCount ((emitted s.ownerName es).map objectText) := by
  induction es generalizing s with
  | nil => simp [emitted, arrayText]
  | cons fd rest ih =>
    cases h : notDotEntry fd with
    | true =>
      rw [List.foldl_cons, ih, loopBody_of_notDot s fd h]
      simp [emitted, h, arrayText, objectText]
    | false =>
      rw [List.foldl_cons, loopBody_of_dot s fd h, ih s]
      simp [emitted, h]

theorem arrayText_pos (objects : List (List Byte)) (count : Int) (hpos : 0 < count)
    (hle : count + (objects.length : Int) ≤ 2147483648) :
    arrayText count objects = (objects.map (fun y => bytes ",\n" ++ y)).flatten := by
  induction objects generalizing count with
  | nil => rfl
  | cons x rest ih =>
    cases rest with
    | nil => simp [arrayText, hpos]
    | cons y zs =>
      have hlen : ((y :: zs).length : Int) = (zs.length : Int) + 1 := by simp
      have hxl : ((x :: y :: zs).length : Int) = (zs.length : Int) + 2 := by
        simp only [List.length_cons]; push_cast; omega
      have hz : (0 : Int) ≤ (zs.length : Int) := Int.natCast_nonneg _
      have hc : toInt (count + 1) = count + 1 := toInt_of_range _ (by omega) (by omega)
      have := ih (count + 1) (by omega) (by omega)
      rw [arrayText, hc, this]
      simp [hpos]

theorem arrayText_zero (objects : List (List Byte))
    (hle : objects.length ≤ 2147483648) :
    arrayText 0 objects = (bytes ",\n").intercalate objects := by
  cases objects with
  | nil => simp [arrayText, List.intercalate]
  | cons x rest =>
    have h1 : toInt (0 + 1) = 1 := by decide
    have hl : (rest.length : Int) + 1 ≤ 2147483648 := by
      simp only [List.length_cons] at hle
      omega
    rw [arrayText, h1, arrayText_pos rest 1 (by omega) (by omega), intercalate_cons]
    simp

theorem arrayText_append (xs ys : List (List Byte)) (count : Int)
    (hr : toInt count = count) :
    arrayText count (xs ++ ys) =
      arrayText count xs ++ arrayText (toInt (count + (xs.length : Int))) ys := by
  induction xs generalizing count with
  | nil => simp [arrayText, hr]
  | cons x rest ih =>
    rw [List.cons_append, arrayText, arrayText, ih _ (toInt_idem _), toInt_toInt_add]
    have : count + 1 + (rest.length : Int) = count + ((x :: rest).length : Int) := by
      simp only [List.length_cons]; push_cast; omega
    rw [this]
    simp

theorem emitted_append (buf : List Byte) (pre post : List WIN32_FIND_DATA) :
    emitted buf (pre ++ post) =
      emitted buf pre ++ emitted ((pre.foldl loopBody (initState buf)).ownerName) post := by
  have gen : ∀ (s : MainState), emitted s.ownerName (pre ++ post) =
      emitted s.ownerName pre ++ emitted ((pre.foldl loopBody s).ownerName) post := by
    induction pre with
    | nil => intro s; simp [emitted]
    | cons fd rest ih =>
      intro s
      cases h : notDotEntry fd with
      | true =>
        have := ih (loopBody s fd)
        rw [loopBody_of_notDot s fd h] at this
        simp only [List.cons_append, emitted, h, if_true, List.foldl_cons]
        rw [loopBody_of_notDot s fd h]
        simpa using this
      | false =>
        have := ih s
        simp only [List.cons_append, emitted, h, List.foldl_cons]
        rw [loopBody_of_dot s fd h]
        simpa using this
  exact gen (initState buf)

theorem emitted_fst (buf : List Byte) (es : List WIN32_FIND_DATA) :
    (emitted buf es).map Prod.fst = es.filter notDotEntry := by
  induction es generalizing buf with
  | nil => rfl
  | cons fd rest ih =>
    cases h : notDotEntry fd with
    | true => simp [emitted, h, ih]
    | false => simp [emitted, h, ih]

theorem filter_notDot_eq (es : List WIN32_FIND_DATA) :
    es.filter notDotEntry = es.filter (fun fd => decide (properName fd)) := by
  apply List.filter_congr
  intro fd _
  by_cases h : properName fd
  · simp [h, (notDotEntry_iff fd).mpr h]
  · have : notDotEntry fd = false := by
      cases hk : notDotEntry fd with
      | true => exact absurd ((notDotEntry_iff fd).mp hk) h
      | false => rfl
    simp [h, this]

theorem fmt_d_natCast (n : Nat) : fmt_d (n : Int) = decimal n := by
  simp [fmt_d]

theorem main_eq (buf : List Byte) (es : List WIN32_FIND_DATA) :
    main buf es =
      (bytes "\x7b\n\"files\": [\n" ++ arrayText 0 ((emitted buf es).map objectText) ++
        footer (toInt ((emitted buf es).length : Int)), 0) := by
  have h0 : toInt 0 = 0 := by decide
  have hc := foldl_fileCount es (initState buf) h0
  have ho := foldl_out es (initState buf)
  simp only [initState] at hc ho
  simp only [main, runLoop, initState, hc, ho]
  simp

theorem main_eq_document (buf : List Byte) (es : List WIN32_FIND_DATA)
    (h : (emitted buf es).length < 2147483648) :
    main buf es =
      (document ((emitted buf es).map objectText) (emitted buf es).length, 0) := by
  have hn : (0 : Int) ≤ ((emitted buf es).length : Int) := Int.natCast_nonneg _
  rw [main_eq, arrayText_zero _ (by rw [List.length_map]; omega),
    toInt_of_range _ (by omega) (by omega)]
  simp only [document, footer, fmt_d_natCast]
  simp

/-! ## Lemmas on GetFileOwner -/

theorem zero_not_mem_ownerFormat (d n : List Byte) : (0 : Byte) ∉ ownerFormat d n := by
  unfold ownerFormat
  intro h
  rcases List.mem_append.mp h with h | h
  · rcases List.mem_append.mp h with h | h
    · exact zero_not_mem_cstr d h
    · revert h; decide
  · exact zero_not_mem_cstr n h

theorem cstr_GetFileOwner_resolved (d n buf beyond : List Byte) (size : Nat)
    (hfit : (ownerFormat d n).length < size) :
    cstr (GetFileOwner (OwnerLookup.resolved d n) buf size ++ beyond) = ownerFormat d n := by
  simp only [GetFileOwner, _snprintf, hfit, if_true]
  rw [List.append_assoc, List.append_assoc]
  exact cstr_append_zero _ _ (zero_not_mem_ownerFormat d n)

theorem toLongLong_of_range (v : Int) (h0 : 0 ≤ v) (h1 : v < 9223372036854775808) :
    toLongLong v = v := by
  unfold toLongLong
  norm_num
  omega

theorem isDir_iff_testBit (fd : WIN32_FIND_DATA) :
    isDir fd = true ↔ fd.dwFileAttributes.testBit 4 = true := by
  unfold isDir FILE_ATTRIBUTE_DIRECTORY
  have h := Nat.and_two_pow fd.dwFileAttributes 4
  norm_num at h
  rw [h]
  cases fd.dwFileAttributes.testBit 4 <;> simp

/-! ## Properties of the owner and of sizes -/

/-- C1, evaluated for the domain CORP and the account alice: whatever the
buffer held before, the owner value left by `GetFileOwner` is CORP, two
backslashes, alice; the owner line carries four backslashes and JSON-decodes
to the value with two backslashes, which is not CORP, one backslash, alice. -/
theorem C1_owner_corp_alice_two_backslashes (buf beyond : List Byte) :
    cstr (GetFileOwner (OwnerLookup.resolved (bytes "CORP") (bytes "alice")) buf 256 ++ beyond)
        = bytes "CORP\\\\alice" ∧
    ownerLines (GetFileOwner (OwnerLookup.resolved (bytes "CORP") (bytes "alice")) buf 256
        ++ beyond) = bytes "    \"owner\": \"CORP\\\\\\\\alice\",\n" ∧
    jsonUnescape (print_json_string
        (GetFileOwner (OwnerLookup.resolved (bytes "CORP") (bytes "alice")) buf 256 ++ beyond))
        = some (bytes "CORP\\\\alice") ∧
    bytes "CORP\\\\alice" ≠ bytes "CORP" ++ bytes "\\" ++ bytes "alice" := by
  have hval := cstr_GetFileOwner_resolved (bytes "CORP") (bytes "alice") buf beyond 256
    (by decide)
  have hfmt : ownerFormat (bytes "CORP") (bytes "alice") = bytes "CORP\\\\alice" := by decide
  rw [hfmt] at hval
  refine ⟨hval, ?_, ?_, by decide⟩
  · unfold ownerLines
    rw [← print_json_string_cstr, hval]
    decide
  · rw [jsonUnescape_print, hval]

/-- C2 fails for the size halves (2^31, 0) of a file: the size line shows a
negative number, not the decimal rendering of 2147483648 * 4294967296
(that is 2^31 * 2^32). -/
theorem C2_counterexample :
    isDir hugeFile = false ∧ hugeFile.nFileSizeHigh = 2147483648 ∧ hugeFile.nFileSizeLow = 0 ∧
    sizeLine hugeFile = bytes "    \"size\": -9223372036854775808,\n" ∧
    sizeLine hugeFile ≠
      bytes "    \"size\": " ++
        decimal (hugeFile.nFileSizeHigh * 4294967296 + hugeFile.nFileSizeLow) ++ bytes ",\n" := by
  have hs : fileSize hugeFile = -9223372036854775808 := by decide
  have hl : sizeLine hugeFile = bytes "    \"size\": -9223372036854775808,\n" := by
    unfold sizeLine
    rw [hs]
    decide
  refine ⟨by decide, by decide, by decide, hl, ?_⟩
  rw [hl]
  decide

/-- C2 as amended: for every non-directory entry whose halves are 32-bit values
with the high half below 2^31, the size line shows the decimal rendering of
high * 2^32 + low, the unmodified byte count. -/
theorem C2_size_is_byte_count (fd : WIN32_FIND_DATA) (hfile : isDir fd = false)
    (hhigh : fd.nFileSizeHigh < 2 ^ 31) (hlow : fd.nFileSizeLow < 2 ^ 32) :
    sizeLine fd =
      bytes "    \"size\": " ++ decimal (fd.nFileSizeHigh * 2 ^ 32 + fd.nFileSizeLow) ++
        bytes ",\n" := by
  have h1 : toLongLong ((fd.nFileSizeHigh : Int) * 2 ^ 32) = (fd.nFileSizeHigh : Int) * 2 ^ 32 := by
    refine toLongLong_of_range _ (by omega) ?_
    omega
  have h2 : toLongLong ((fd.nFileSizeHigh : Int) * 2 ^ 32 + (fd.nFileSizeLow : Int)) =
      (fd.nFileSizeHigh : Int) * 2 ^ 32 + (fd.nFileSizeLow : Int) := by
    refine toLongLong_of_range _ (by omega) ?_
    omega
  have h3 : fileSize fd = ((fd.nFileSizeHigh * 2 ^ 32 + fd.nFileSizeLow : Nat) : Int) := by
    simp only [fileSize, hfile, h1, h2]
    push_cast
    simp
  unfold sizeLine
  rw [h3, fmt_d_natCast]

/-- Witness of C2 as amended: `note.txt`, 2000 bytes. -/
theorem C2_size_is_byte_count_witness :
    isDir noteTxt = false ∧ noteTxt.nFileSizeHigh < 2 ^ 31 ∧ noteTxt.nFileSizeLow < 2 ^ 32 ∧
    sizeLine noteTxt =
      bytes "    \"size\": " ++
        decimal (noteTxt.nFileSizeHigh * 2 ^ 32 + noteTxt.nFileSizeLow) ++ bytes ",\n" :=
  ⟨by decide, by norm_num [noteTxt], by norm_num [noteTxt],
    C2_size_is_byte_count noteTxt (by decide) (by norm_num [noteTxt]) (by norm_num [noteTxt])⟩

/-- C3: for every non-directory entry the size line shows `fileSize`, and the
label of the size_readable line follows from that value: "bytes" below 1024,
"KB" from 1024 up to 1048575, "MB" from 1048576 on; it is one of these three
labels and never "N/A". -/
theorem C3_size_readable_bands (fd : WIN32_FIND_DATA) (hfile : isDir fd = false) :
    sizeLine fd = bytes "    \"size\": " ++ fmt_d (fileSize fd) ++ bytes ",\n" ∧
    sizeReadableLine fd = bytes "    \"size_readable\": \"" ++ sizeReadable fd ++ bytes "\",\n" ∧
    (fileSize fd < 1024 → sizeReadable fd = bytes "bytes") ∧
    (1024 ≤ fileSize fd → fileSize fd < 1048576 → sizeReadable fd = bytes "KB") ∧
    (1048576 ≤ fileSize fd → sizeReadable fd = bytes "MB") ∧
    (sizeReadable fd = bytes "bytes" ∨ sizeReadable fd = bytes "KB" ∨
      sizeReadable fd = bytes "MB") ∧
    sizeReadable fd ≠ bytes "N/A" := by
  have hne1 : bytes "bytes" ≠ bytes "N/A" := by decide
  have hne2 : bytes "KB" ≠ bytes "N/A" := by decide
  have hne3 : bytes "MB" ≠ bytes "N/A" := by decide
  refine ⟨rfl, rfl, ?_, ?_, ?_, ?_, ?_⟩
  · intro h; simp [sizeReadable, hfile, h]
  · intro h1 h2
    have : ¬ fileSize fd < 1024 := not_lt.mpr h1
    simp [sizeReadable, hfile, this, h2]
  · intro h
    have h1 : ¬ fileSize fd < 1024 := by omega
    have h2 : ¬ fileSize fd < 1048576 := by omega
    simp [sizeReadable, hfile, h1, h2]
  · by_cases h1 : fileSize fd < 1024
    · left; simp [sizeReadable, hfile, h1]
    · by_cases h2 : fileSize fd < 1048576
      · right; left; simp [sizeReadable, hfile, h1, h2]
      · right; right; simp [sizeReadable, hfile, h1, h2]
  · by_cases h1 : fileSize fd < 1024
    · simpa [sizeReadable, hfile, h1] using hne1
    · by_cases h2 : fileSize fd < 1048576
      · simpa [sizeReadable, hfile, h1, h2] using hne2
      · simpa [sizeReadable, hfile, h1, h2] using hne3

/-- Witness of C3: the 2000-byte file `note.txt` is labelled "KB". -/
theorem C3_size_readable_bands_witness :
    isDir noteTxt = false ∧ fileSize noteTxt = 2000 ∧ sizeReadable noteTxt = bytes "KB" :=
  ⟨by decide, by decide,
    (C3_size_readable_bands noteTxt (by decide)).2.2.2.1 (by decide) (by decide)⟩

/-- C4: for every entry whose directory bit (bit 4, value 0x10) is set, whatever
its size halves, the type line says "directory", the size line says 0 and the
size_readable line says "N/A"; and every entry whose type is "directory" has
size 0 and label "N/A". -/
theorem C4_directory_entries (fd : WIN32_FIND_DATA) :
    (fd.dwFileAttributes.testBit 4 = true →
      typeLine fd = bytes "    \"type\": \"directory\",\n" ∧
      sizeLine fd = bytes "    \"size\": 0,\n" ∧
      sizeReadableLine fd = bytes "    \"size_readable\": \"N/A\",\n") ∧
    (typeText fd = bytes "directory" →
      fileSize fd = 0 ∧
      sizeLine fd = bytes "    \"size\": 0,\n" ∧
      sizeReadableLine fd = bytes "    \"size_readable\": \"N/A\",\n") := by
  have key : isDir fd = true →
      typeLine fd = bytes "    \"type\": \"directory\",\n" ∧ fileSize fd = 0 ∧
      sizeLine fd = bytes "    \"size\": 0,\n" ∧
      sizeReadableLine fd = bytes "    \"size_readable\": \"N/A\",\n" := by
    intro h
    have hsize : fileSize fd = 0 := by simp [fileSize, h]
    refine ⟨?_, hsize, ?_, ?_⟩
    · simp only [typeLine, typeText, h, if_true]; decide
    · simp only [sizeLine, hsize]; decide
    · simp only [sizeReadableLine, sizeReadable, h, if_true]; decide
  constructor
  · intro hbit
    obtain ⟨h1, _, h3, h4⟩ := key ((isDir_iff_testBit fd).mpr hbit)
    exact ⟨h1, h3, h4⟩
  · intro htype
    have hdir : isDir fd = true := by
      cases h : isDir fd with
      | true => rfl
      | false =>
        exfalso
        simp only [typeText, h] at htype
        revert htype
        decide
    obtain ⟨_, h2, h3, h4⟩ := key hdir
    exact ⟨h2, h3, h4⟩

/-- Witness of C4: the directory `Logs`, reported with size halves 3 and 4096. -/
theorem C4_directory_entries_witness :
    logsDir.dwFileAttributes.testBit 4 = true ∧
    typeLine logsDir = bytes "    \"type\": \"directory\",\n" ∧
    sizeLine logsDir = bytes "    \"size\": 0,\n" ∧
    sizeReadableLine logsDir = bytes "    \"size_readable\": \"N/A\",\n" :=
  ⟨by decide, (C4_directory_entries logsDir).1 (by decide)⟩

/-! ## Lemmas on decimal rendering -/

theorem toDigitsCore_eq (b : Nat) (hb : 2 ≤ b) : ∀ (fuel n : Nat) (ds : List Char), n < fuel →
    Nat.toDigitsCore b fuel n ds = Nat.toDigitsCore b (n + 1) n [] ++ ds := by
  intro fuel
  induction fuel using Nat.strong_induction_on with
  | _ fuel ih =>
    intro n ds hn
    cases fuel with
    | zero => omega
    | succ f =>
      by_cases h0 : n / b = 0
      · simp [Nat.toDigitsCore, h0]
      · have hlt : n / b < n :=
          Nat.div_lt_self (Nat.pos_of_ne_zero (fun h => h0 (by simp [h]))) (by omega)
        simp only [Nat.toDigitsCore, h0, if_false]
        rw [ih f (by omega) (n / b) _ (by omega), ih n (by omega) (n / b) _ hlt]
        simp

theorem decimal_lt_ten (n : Nat) (h : n < 10) : decimal n = [digit n] := by
  have h0 : n / 10 = 0 := by omega
  have h1 : n % 10 = n := by omega
  simp [decimal, digit, Nat.toDigits, Nat.toDigitsCore, h0, h1]

theorem decimal_ge_ten (n : Nat) (h : 10 ≤ n) :
    decimal n = decimal (n / 10) ++ [digit (n % 10)] := by
  have h0 : n / 10 ≠ 0 := by omega
  have hlt : n / 10 < n := by omega
  have e : Nat.toDigitsCore 10 (n + 1) n [] =
      Nat.toDigitsCore 10 n (n / 10) [Nat.digitChar (n % 10)] := by
    rw [Nat.toDigitsCore]
    simp [h0]
  unfold decimal digit Nat.toDigits
  rw [e, toDigitsCore_eq 10 (by omega) n (n / 10) _ hlt]
  simp

theorem digit_range : ∀ d : Nat, d < 10 → 48 ≤ (digit d).val ∧ (digit d).val ≤ 57 := by
  decide

theorem decimal_digits (n : Nat) : ∀ b ∈ decimal n, 48 ≤ b.val ∧ b.val ≤ 57 := by
  induction n using Nat.strong_induction_on with
  | _ n ih =>
    intro b hb
    by_cases h : n < 10
    · rw [decimal_lt_ten n h] at hb
      simp at hb
      subst hb
      exact digit_range n h
    · rw [decimal_ge_ten n (by omega)] at hb
      rcases List.mem_append.mp hb with hb | hb
      · exact ih (n / 10) (by omega) b hb
      · simp at hb
        subst hb
        exact digit_range _ (Nat.mod_lt _ (by omega))

theorem decimal_ne_nil (n : Nat) : decimal n ≠ [] := by
  by_cases h : n < 10
  · rw [decimal_lt_ten n h]; simp
  · rw [decimal_ge_ten n (by omega)]; simp

theorem digit_zero : digit 0 = charByte '0' := by decide

theorem fmt_0d_two (n : Nat) (h : n < 100) : fmt_0d 2 n = twoDigits n := by
  by_cases h1 : n < 10
  · have a : n / 10 = 0 := by omega
    have b : n % 10 = n := by omega
    simp [fmt_0d, padZero, twoDigits, decimal_lt_ten n h1, a, b, digit_zero]
  · rw [fmt_0d, decimal_ge_ten n (by omega), decimal_lt_ten (n / 10) (by omega)]
    simp [padZero, twoDigits]

theorem decimal_three (n : Nat) (h0 : 100 ≤ n) (h : n < 1000) :
    decimal n = [digit (n / 100), digit (n / 10 % 10), digit (n % 10)] := by
  rw [decimal_ge_ten n (by omega), decimal_ge_ten (n / 10) (by omega),
    decimal_lt_ten (n / 10 / 10) (by omega)]
  have : n / 10 / 10 = n / 100 := by omega
  simp [this]

theorem decimal_four (n : Nat) (h0 : 1000 ≤ n) (h : n < 10000) :
    decimal n = [digit (n / 1000), digit (n / 100 % 10), digit (n / 10 % 10), digit (n % 10)] := by
  rw [decimal_ge_ten n (by omega), decimal_three (n / 10) (by omega) (by omega)]
  have a : n / 10 / 100 = n / 1000 := by omega
  have b : n / 10 / 10 % 10 = n / 100 % 10 := by omega
  simp [a, b]

theorem decimal_five (n : Nat) (h0 : 10000 ≤ n) (h : n < 100000) :
    decimal n = fiveDigits n := by
  rw [decimal_ge_ten n (by omega), decimal_four (n / 10) (by omega) (by omega)]
  have a : n / 10 / 1000 = n / 10000 := by omega
  have b : n / 10 / 100 % 10 = n / 1000 % 10 := by omega
  have c : n / 10 / 10 % 10 = n / 100 % 10 := by omega
  simp [fiveDigits, a, b, c]

theorem fmt_0d_four (n : Nat) (h : n < 10000) : fmt_0d 4 n = fourDigits n := by
  by_cases h1 : n < 10
  · have a : n / 1000 = 0 := by omega
    have b : n / 100 % 10 = 0 := by omega
    have c : n / 10 % 10 = 0 := by omega
    have d : n % 10 = n := by omega
    simp [fmt_0d, padZero, fourDigits, decimal_lt_ten n h1, a, b, c, d, digit_zero,
      List.replicate]
  · by_cases h2 : n < 100
    · have a : n / 1000 = 0 := by omega
      have b : n / 100 % 10 = 0 := by omega
      have c : n / 10 % 10 = n / 10 := by omega
      rw [fmt_0d, decimal_ge_ten n (by omega), decimal_lt_ten (n / 10) (by omega)]
      simp [padZero, fourDigits, a, b, c, digit_zero, List.replicate]
    · by_cases h3 : n < 1000
      · have a : n / 1000 = 0 := by omega
        have b : n / 100 % 10 = n / 100 := by omega
        rw [fmt_0d, decimal_three n (by omega) h3]
        simp [padZero, fourDigits, a, b, digit_zero, List.replicate]
      · rw [fmt_0d, decimal_four n (by omega) h]
        simp [padZero, fourDigits]

theorem fmt_0d_four_large (n : Nat) (h0 : 10000 ≤ n) (h : n < 100000) :
    fmt_0d 4 n = fiveDigits n := by
  rw [fmt_0d, decimal_five n h0 h]
  simp [padZero, fiveDigits]

/-! ## Properties of the document -/

theorem emitted_eq_nil (buf : List Byte) (es : List WIN32_FIND_DATA)
    (h : ∀ fd ∈ es, ¬ properName fd) : emitted buf es = [] := by
  have hf : (emitted buf es).map Prod.fst = [] := by
    rw [emitted_fst, List.filter_eq_nil_iff]
    intro fd hfd hk
    exact h fd hfd ((notDotEntry_iff fd).mp hk)
  simpa using hf

/-- C11: when every enumerated record is named "." or ".." (an empty
directory), and so when nothing is enumerated because the directory cannot
be opened, the output is the document with an empty files array and
total_files 0, which without its whitespace reads as the text with the two
keys files and total_files, an empty array and the number 0; `main` returns 0,
and the output is byte for byte that of the run on no record at all. -/
theorem C11_empty_directory_document (buf other : List Byte) (es : List WIN32_FIND_DATA)
    (h : ∀ fd ∈ es, ¬ properName fd) :
    main buf es = (bytes "\x7b\n\"files\": [\n\n],\n\"total_files\": 0\n\x7d\n", 0) ∧
    stripWhitespace (main buf es).1 = bytes "\x7b\"files\":[],\"total_files\":0\x7d" ∧
    (main buf es).2 = 0 ∧
    main buf es = main other [] := by
  have hdoc : main buf es = (bytes "\x7b\n\"files\": [\n\n],\n\"total_files\": 0\n\x7d\n", 0) := by
    rw [main_eq, emitted_eq_nil buf es h]
    decide
  have hnil : main other [] = (bytes "\x7b\n\"files\": [\n\n],\n\"total_files\": 0\n\x7d\n", 0) := by
    rw [main_eq]
    simp only [emitted]
    decide
  refine ⟨hdoc, ?_, ?_, ?_⟩
  · rw [hdoc]; decide
  · rw [hdoc]
  · rw [hdoc, hnil]

/-- Witness of C11: a directory that only enumerates "." and "..". -/
theorem C11_empty_directory_document_witness :
    (∀ fd ∈ [named ".", named ".."], ¬ properName fd) ∧
    main stackGarbage [named ".", named ".."] =
      (bytes "\x7b\n\"files\": [\n\n],\n\"total_files\": 0\n\x7d\n", 0) ∧
    stripWhitespace (main stackGarbage [named ".", named ".."]).1 =
      bytes "\x7b\"files\":[],\"total_files\":0\x7d" ∧
    (main stackGarbage [named ".", named ".."]).2 = 0 ∧
    main stackGarbage [named ".", named ".."] = main [] [] :=
  ⟨by decide, C11_empty_directory_document stackGarbage [] [named ".", named ".."] (by decide)⟩

theorem intersperse_count (sep : List Byte) (xs : List (List Byte))
    (h : ∀ x ∈ xs, x ≠ sep) : (xs.intersperse sep).count sep = xs.length - 1 := by
  induction xs with
  | nil => rfl
  | cons x rest ih =>
    cases rest with
    | nil =>
      have hx : x ≠ sep := h x (by simp)
      simp [List.intersperse, List.count_cons, hx]
    | cons y zs =>
      have hx : x ≠ sep := h x (by simp)
      have hrest := ih (fun z hz => h z (by simp [hz]))
      have hlen : ((y :: zs).intersperse sep).count sep = zs.length := by
        simpa using hrest
      simp [List.intersperse, List.count_cons, hx, hlen]

theorem intersperse_head (sep : List Byte) (xs : List (List Byte)) :
    (xs.intersperse sep).head? = xs.head? := by
  cases xs with
  | nil => rfl
  | cons x rest => cases rest <;> simp [List.intersperse]

theorem intersperse_getLast (sep : List Byte) (xs : List (List Byte)) :
    (xs.intersperse sep).getLast? = xs.getLast? := by
  induction xs with
  | nil => rfl
  | cons x rest ih =>
    cases rest with
    | nil => simp [List.intersperse]
    | cons y zs =>
      have hne : (y :: zs).intersperse sep ≠ [] := by
        cases zs <;> simp [List.intersperse]
      simp only [List.intersperse]
      rw [List.getLast?_cons_cons, List.getLast?_cons_cons]
      rw [← ih]
      cases hi : (y :: zs).intersperse sep with
      | nil => exact absurd hi hne
      | cons a as => rw [List.getLast?_cons_cons]

theorem objectText_ne_separator (p : WIN32_FIND_DATA × List Byte) :
    objectText p ≠ bytes ",\n" := by
  intro h
  have hhead : (objectText p).head? = some (charByte ' ') := by
    simp [objectText, printEntry, nameLines, bytes]
  rw [h] at hhead
  revert hhead
  decide

/-! ## Properties of one entry object -/

theorem plainText_append (a b : List Byte) (ha : plainText a) (hb : plainText b) :
    plainText (a ++ b) := by
  intro x hx
  rcases List.mem_append.mp hx with h | h
  · exact ha x h
  · exact hb x h

theorem plainText_of_digits (v : List Byte) (h : ∀ b ∈ v, 48 ≤ b.val ∧ b.val ≤ 57) :
    plainText v := by
  intro b hb
  obtain ⟨h1, h2⟩ := h b hb
  refine ⟨?_, ?_, by omega⟩
  · intro e; rw [e] at h1; revert h1; decide
  · intro e; rw [e] at h2; revert h2; decide

theorem fmt_0d_digits (w v : Nat) : ∀ b ∈ fmt_0d w v, 48 ≤ b.val ∧ b.val ≤ 57 := by
  intro b hb
  unfold fmt_0d padZero at hb
  rcases List.mem_append.mp hb with h | h
  · have : b = charByte '0' := List.eq_of_mem_replicate h
    subst this
    decide
  · exact decimal_digits v b h

theorem plainText_timeText (t : SYSTEMTIME) : plainText (timeText t) := by
  have hone : ∀ c : Byte, c ≠ 34 → c ≠ 92 → 32 ≤ c.val → plainText [c] := by
    intro c h1 h2 h3 b hb
    rw [List.mem_singleton] at hb
    subst hb
    exact ⟨h1, h2, h3⟩
  have hs : plainText (bytes "/") := hone 47 (by decide) (by decide) (by decide)
  have hb : plainText (bytes " ") := hone 32 (by decide) (by decide) (by decide)
  have hc : plainText (bytes ":") := hone 58 (by decide) (by decide) (by decide)
  have hd : ∀ w v, plainText (fmt_0d w v) := fun w v => plainText_of_digits _ (fmt_0d_digits w v)
  have p1 := plainText_append _ _ (hd 2 t.wMonth) hs
  have p2 := plainText_append _ _ (plainText_append _ _ p1 (hd 2 t.wDay)) hs
  have p3 := plainText_append _ _ (plainText_append _ _ p2 (hd 4 t.wYear)) hb
  have p4 := plainText_append _ _ (plainText_append _ _ p3 (hd 2 t.wHour)) hc
  have p5 := plainText_append _ _ (plainText_append _ _ p4 (hd 2 t.wMinute)) hc
  exact plainText_append _ _ p5 (hd 2 t.wSecond)

theorem numberText_fmt_d (v : Int) : numberText (fmt_d v) := by
  unfold fmt_d
  split_ifs with h
  · refine ⟨by simp, ?_⟩
    intro b hb
    rcases List.mem_cons.mp hb with h1 | h1
    · exact Or.inl h1
    · exact Or.inr (decimal_digits _ b h1)
  · exact ⟨decimal_ne_nil _, fun b hb => Or.inr (decimal_digits _ b hb)⟩

theorem flagText_cases (attributes flag : Nat) :
    flagText attributes flag = bytes "true" ∨ flagText attributes flag = bytes "false" := by
  unfold flagText
  split_ifs
  · exact Or.inl rfl
  · exact Or.inr rfl

theorem printEntry_eq_template (fd : WIN32_FIND_DATA) (ownerName : List Byte) :
    printEntry fd ownerName =
      entryTemplate (print_json_string fd.cFileName) (typeText fd) (fmt_d (fileSize fd))
        (sizeReadable fd) (print_json_string (ownerName ++ fd.beyond))
        (timeText fd.created) (timeText fd.modified) (timeText fd.accessed)
        (flagText fd.dwFileAttributes FILE_ATTRIBUTE_HIDDEN)
        (flagText fd.dwFileAttributes FILE_ATTRIBUTE_SYSTEM)
        (flagText fd.dwFileAttributes FILE_ATTRIBUTE_READONLY) := by
  simp only [printEntry, entryTemplate, nameLines, typeLine, sizeLine, sizeReadableLine,
    ownerLines, timeLines, attributeLines, List.append_assoc]

/-- C13: every written entry object is the object with the keys name, type,
size, size_readable, owner, created, modified, accessed, attributes in this
order and the keys hidden, system, readonly in this order inside attributes,
whatever the values; and no value can bring in a further key: name and owner
are escaped string contents, type, size_readable and the timestamps hold no
quote and no backslash, size is a number, the flags are true or false. -/
theorem C13_entry_keys_in_order (fd : WIN32_FIND_DATA) (ownerName : List Byte) :
    printEntry fd ownerName =
      entryTemplate (print_json_string fd.cFileName) (typeText fd) (fmt_d (fileSize fd))
        (sizeReadable fd) (print_json_string (ownerName ++ fd.beyond))
        (timeText fd.created) (timeText fd.modified) (timeText fd.accessed)
        (flagText fd.dwFileAttributes FILE_ATTRIBUTE_HIDDEN)
        (flagText fd.dwFileAttributes FILE_ATTRIBUTE_SYSTEM)
        (flagText fd.dwFileAttributes FILE_ATTRIBUTE_READONLY) ∧
    jsonUnescape (print_json_string fd.cFileName) = some (cstr fd.cFileName) ∧
    jsonUnescape (print_json_string (ownerName ++ fd.beyond)) =
      some (cstr (ownerName ++ fd.beyond)) ∧
    (typeText fd = bytes "directory" ∨ typeText fd = bytes "file") ∧
    numberText (fmt_d (fileSize fd)) ∧
    (sizeReadable fd = bytes "N/A" ∨ sizeReadable fd = bytes "bytes" ∨
      sizeReadable fd = bytes "KB" ∨ sizeReadable fd = bytes "MB") ∧
    plainText (timeText fd.created) ∧ plainText (timeText fd.modified) ∧
    plainText (timeText fd.accessed) ∧
    (∀ flag : Nat, flagText fd.dwFileAttributes flag = bytes "true" ∨
      flagText fd.dwFileAttributes flag = bytes "false") := by
  refine ⟨printEntry_eq_template fd ownerName, jsonUnescape_print _, jsonUnescape_print _,
    ?_, numberText_fmt_d _, ?_, plainText_timeText _, plainText_timeText _,
    plainText_timeText _, fun flag => flagText_cases _ flag⟩
  · unfold typeText
    split_ifs
    · exact Or.inl rfl
    · exact Or.inr rfl
  · unfold sizeReadable
    split_ifs
    · exact Or.inl rfl
    · exact Or.inr (Or.inl rfl)
    · exact Or.inr (Or.inr (Or.inl rfl))
    · exact Or.inr (Or.inr (Or.inr rfl))

theorem land_ne_zero_eq_testBit (a k : Nat) : (a &&& 2 ^ k != 0) = a.testBit k := by
  rw [Nat.and_two_pow]
  cases a.testBit k <;> simp

theorem flagText_eq (a k : Nat) :
    flagText a (2 ^ k) = if a.testBit k then bytes "true" else bytes "false" := by
  unfold flagText
  rw [land_ne_zero_eq_testBit]

theorem typeText_eq (fd : WIN32_FIND_DATA) :
    typeText fd = if fd.dwFileAttributes.testBit 4 then bytes "directory" else bytes "file" := by
  unfold typeText
  cases h : fd.dwFileAttributes.testBit 4 with
  | true => rw [(isDir_iff_testBit fd).mpr h]
  | false =>
    have : isDir fd = false := by
      cases hd : isDir fd with
      | true => rw [(isDir_iff_testBit fd).mp hd] at h; exact absurd h (by decide)
      | false => rfl
    rw [this]

/-! ## Properties of the timestamps -/

theorem timeText_of_fields (t : SYSTEMTIME) (h : civilFields t) :
    timeText t =
      twoDigits t.wMonth ++ bytes "/" ++ twoDigits t.wDay ++ bytes "/" ++ fmt_0d 4 t.wYear ++
        bytes " " ++ twoDigits t.wHour ++ bytes ":" ++ twoDigits t.wMinute ++ bytes ":" ++
        twoDigits t.wSecond := by
  obtain ⟨_, h2, _, h4, h5, h6, h7⟩ := h
  unfold timeText
  rw [fmt_0d_two t.wMonth (by omega), fmt_0d_two t.wDay (by omega),
    fmt_0d_two t.wHour (by omega), fmt_0d_two t.wMinute (by omega),
    fmt_0d_two t.wSecond (by omega)]

/-- C15 fails for the year 10000, which fits the 16-bit year field: the
timestamp takes 20 characters, the year being written with five digits. -/
theorem C15_counterexample :
    civilFields farTime ∧ farTime.wYear ≤ 65535 ∧
    timeText farTime = bytes "01/01/10000 00:00:00" ∧
    (timeText farTime).length = 20 ∧ (timeText farTime).length ≠ 19 := by
  decide

/-- C15 as amended: each of created, modified and accessed is written by the
same format, and for every civil timestamp (month 1-12, day 1-31, hour 0-23,
minute and second 0-59) with a year up to 9999 it is exactly the 19
characters MM/DD/YYYY HH:MM:SS with zero-padded two-digit month, day, hour,
minute, second and a zero-padded four-digit year; for a year from 10000 up to
65535 the year is written with its five digits and the text has 20
characters. -/
theorem C15_timestamp_shape (t : SYSTEMTIME) (h : civilFields t) :
    (∀ fd : WIN32_FIND_DATA, timeLines fd =
      bytes "    \"created\": \"" ++ timeText fd.created ++ bytes "\",\n" ++
      bytes "    \"modified\": \"" ++ timeText fd.modified ++ bytes "\",\n" ++
      bytes "    \"accessed\": \"" ++ timeText fd.accessed ++ bytes "\",\n") ∧
    (t.wYear ≤ 9999 → timeText t = civilText t ∧ (timeText t).length = 19) ∧
    (10000 ≤ t.wYear → t.wYear ≤ 65535 →
      timeText t =
        twoDigits t.wMonth ++ bytes "/" ++ twoDigits t.wDay ++ bytes "/" ++
          fiveDigits t.wYear ++ bytes " " ++ twoDigits t.wHour ++ bytes ":" ++
          twoDigits t.wMinute ++ bytes ":" ++ twoDigits t.wSecond ∧
      (timeText t).length = 20) := by
  refine ⟨fun _ => rfl, ?_, ?_⟩
  · intro hy
    have e : timeText t = civilText t := by
      rw [timeText_of_fields t h, fmt_0d_four t.wYear (by omega)]
      rfl
    refine ⟨e, ?_⟩
    rw [e]
    rfl
  · intro hy1 hy2
    have e := timeText_of_fields t h
    rw [fmt_0d_four_large t.wYear hy1 (by omega)] at e
    refine ⟨e, ?_⟩
    rw [e]
    rfl

/-- Witness of C15 as amended: the timestamp 03/09/2024 14:05:07 of
`note.txt`. -/
theorem C15_timestamp_shape_witness :
    civilFields sampleTime ∧ sampleTime.wYear ≤ 9999 ∧
    timeText sampleTime = civilText sampleTime ∧ (timeText sampleTime).length = 19 ∧
    civilText sampleTime = bytes "03/09/2024 14:05:07" :=
  ⟨by decide, by decide,
    ((C15_timestamp_shape sampleTime (by decide)).2.1 (by decide)).1,
    ((C15_timestamp_shape sampleTime (by decide)).2.1 (by decide)).2,
    by decide⟩

/-! ## Properties of an owner text that does not fit the buffer -/

theorem print_json_string_append (a b : List Byte) (h : (0 : Byte) ∉ a) :
    print_json_string (a ++ b) = print_json_string a ++ print_json_string b := by
  induction a with
  | nil => rfl
  | cons x xs ih =>
    have hx : x ≠ 0 := fun h0 => h (by simp [h0])
    have hxs : (0 : Byte) ∉ xs := fun h0 => h (by simp [h0])
    simp [print_json_string, hx, ih hxs]

theorem strcpy_Unknown_length (buf : List Byte) (h : buf.length = 256) :
    (strcpy buf (bytes "Unknown")).length = 256 := by
  have hU : cstr (bytes "Unknown") = bytes "Unknown" := by decide
  have hl : (bytes "Unknown").length = 7 := by decide
  unfold strcpy
  rw [hU]
  simp [hl, h]

theorem GetFileOwner_truncated (d n buf : List Byte) (hbuf : buf.length = 256)
    (hlong : 256 ≤ (ownerFormat d n).length) :
    GetFileOwner (OwnerLookup.resolved d n) buf 256 = (ownerFormat d n).take 256 := by
  have hnot : ¬ (ownerFormat d n).length < 256 := by omega
  simp only [GetFileOwner, _snprintf, hnot, if_false]
  rw [List.drop_of_length_le (by rw [strcpy_Unknown_length buf hbuf])]
  simp

theorem longOwner_length :
    (ownerFormat (List.replicate 200 (charByte 'D'))
      (List.replicate 100 (charByte 'n'))).length = 302 := by
  have hD : cstr (List.replicate 200 (charByte 'D')) = List.replicate 200 (charByte 'D') := by
    apply cstr_of_not_mem
    intro h
    have := List.eq_of_mem_replicate h
    revert this
    decide
  have hn : cstr (List.replicate 100 (charByte 'n')) = List.replicate 100 (charByte 'n') := by
    apply cstr_of_not_mem
    intro h
    have := List.eq_of_mem_replicate h
    revert this
    decide
  have hb : (bytes "\\\\").length = 2 := by decide
  unfold ownerFormat
  rw [hD, hn, List.length_append, List.length_append, List.length_replicate,
    List.length_replicate, hb]

/-- C16: when the owner text has 256 characters or more, `GetFileOwner` fills
the 256 characters of the buffer with the first 256 characters of the text
and stores no terminator, so that `print_json_string` does not stop at the
end of the buffer: the owner written is the escaped first 256 characters
followed by the escaped bytes that lie after the buffer, up to their first
NUL. -/
theorem C16_truncated_owner_has_no_terminator (d n buf beyond : List Byte)
    (hbuf : buf.length = 256) (hlong : 256 < (ownerFormat d n).length) :
    GetFileOwner (OwnerLookup.resolved d n) buf 256 = (ownerFormat d n).take 256 ∧
    (GetFileOwner (OwnerLookup.resolved d n) buf 256).length = 256 ∧
    (0 : Byte) ∉ GetFileOwner (OwnerLookup.resolved d n) buf 256 ∧
    print_json_string (GetFileOwner (OwnerLookup.resolved d n) buf 256 ++ beyond) =
      print_json_string ((ownerFormat d n).take 256) ++ print_json_string beyond := by
  have e := GetFileOwner_truncated d n buf hbuf (by omega)
  have h0 : (0 : Byte) ∉ (ownerFormat d n).take 256 :=
    fun hm => zero_not_mem_ownerFormat d n (List.mem_of_mem_take hm)
  rw [e]
  refine ⟨rfl, ?_, h0, print_json_string_append _ _ h0⟩
  rw [List.length_take]
  omega

/-- Witness of C16: a domain of 200 characters and a name of 100, with the
bytes X, Y and a NUL after the buffer: the owner written ends with XY, which
is no part of the owner text. -/
theorem C16_truncated_owner_has_no_terminator_witness :
    stackGarbage.length = 256 ∧
    256 < (ownerFormat (List.replicate 200 (charByte 'D'))
      (List.replicate 100 (charByte 'n'))).length ∧
    print_json_string (GetFileOwner longOwnerFile.owner stackGarbage 256 ++
        longOwnerFile.beyond) =
      print_json_string ((ownerFormat (List.replicate 200 (charByte 'D'))
        (List.replicate 100 (charByte 'n'))).take 256) ++ bytes "XY" := by
  have hs : stackGarbage.length = 256 := by
    unfold stackGarbage
    rw [List.length_replicate]
  have hl : 256 < (ownerFormat (List.replicate 200 (charByte 'D'))
      (List.replicate 100 (charByte 'n'))).length := by
    rw [longOwner_length]
    omega
  have h := (C16_truncated_owner_has_no_terminator (List.replicate 200 (charByte 'D'))
    (List.replicate 100 (charByte 'n')) stackGarbage (bytes "XY" ++ [0]) hs hl).2.2.2
  have hxy : print_json_string (bytes "XY" ++ [0]) = bytes "XY" := by decide
  rw [hxy] at h
  exact ⟨hs, hl, h⟩

/-! ## The output of print_json_string as string content -/

set_option maxRecDepth 100000 in
theorem specEscape_isStringToken : ∀ b : Byte, isStringToken (specEscape b) = true := by
  decide

theorem isHexLowerDigit_ge (b : Byte) (h : isHexLowerDigit b = true) : 48 ≤ b.val := by
  unfold isHexLowerDigit at h
  simp at h
  omega

theorem stringToken_props (t : List Byte) (h : isStringToken t = true) :
    (∀ x ∈ t, 32 ≤ x.val) ∧ (34 ∈ t → t = [92, 34]) ∧ (92 ∈ t → t.head? = some 92) := by
  unfold isStringToken at h
  split at h
  · rename_i b
    simp at h
    obtain ⟨⟨h1, h2⟩, h3⟩ := h
    refine ⟨?_, ?_, ?_⟩
    · intro x hx; simp at hx; subst hx; exact h1
    · intro hx; simp at hx; exact absurd hx.symm h2
    · intro hx; simp at hx; exact absurd hx.symm h3
  · rename_i a e
    simp at h
    obtain ⟨ha, he⟩ := h
    subst ha
    have he32 : 32 ≤ e.val := by
      rcases he with (((((he | he) | he) | he) | he) | he) | he <;> subst he <;> decide
    refine ⟨?_, ?_, fun _ => rfl⟩
    · intro x hx
      simp at hx
      rcases hx with hx | hx
      · subst hx; decide
      · subst hx; exact he32
    · intro hx
      simp at hx
      rw [← hx]
  · rename_i a u z1 z2 hh l
    simp at h
    obtain ⟨⟨⟨⟨⟨ha, hu⟩, hz1⟩, hz2⟩, hhh⟩, hl⟩ := h
    subst ha hu hz1 hz2
    have g1 := isHexLowerDigit_ge hh hhh
    have g2 := isHexLowerDigit_ge l hl
    refine ⟨?_, ?_, ?_⟩
    · intro x hx
      simp at hx
      rcases hx with hx | hx | hx | hx | hx <;> subst hx <;> first | decide | omega
    · intro hx
      exfalso
      simp at hx
      rcases hx with hx | hx
      · rw [← hx] at g1; exact absurd g1 (by decide)
      · rw [← hx] at g2; exact absurd g2 (by decide)
    · intro _; rfl
  · exact absurd h (by simp)

/-- C17: for every byte string, the output of `print_json_string` is a
sequence of units, each being a byte from 32 on that is neither a quote nor a
backslash, or one of the escapes of quote, backslash, b, f, n, r, t, or a
u-escape with two zeros and two lowercase hexadecimal digits; a unit with a
quote is the escape of the quote, a unit with a backslash begins with it; the
output has no byte below 32; and strict JSON unescaping reads the whole
output as one string content, the input up to its first NUL. -/
theorem C17_output_cannot_leave_string (s : List Byte) :
    (∀ b ∈ print_json_string s, 32 ≤ b.val) ∧
    (∃ units : List (List Byte),
      print_json_string s = units.flatten ∧
      ∀ t ∈ units, isStringToken t = true ∧ (34 ∈ t → t = [92, 34]) ∧
        (92 ∈ t → t.head? = some 92)) ∧
    jsonUnescape (print_json_string s) = some (cstr s) := by
  have hout : print_json_string s = ((cstr s).map specEscape).flatten := by
    rw [print_json_string_eq_join]
    congr 1
    exact List.map_congr_left (fun b _ => escapeChar_eq_spec b)
  have htok : ∀ t ∈ (cstr s).map specEscape, isStringToken t = true := by
    intro t ht
    obtain ⟨c, _, rfl⟩ := List.mem_map.mp ht
    exact specEscape_isStringToken c
  refine ⟨?_, ⟨(cstr s).map specEscape, hout, ?_⟩, jsonUnescape_print s⟩
  · intro b hb
    rw [hout] at hb
    obtain ⟨t, ht, hbt⟩ := List.mem_flatten.mp hb
    exact (stringToken_props t (htok t ht)).1 b hbt
  · intro t ht
    exact ⟨htok t ht, (stringToken_props t (htok t ht)).2.1,
      (stringToken_props t (htok t ht)).2.2⟩

/-! ## Properties of the enumeration -/

theorem properName_numbered (i : Nat) : properName (numbered i) := by
  have hz : (0 : Byte) ∉ decimal i := by
    intro h
    have := (decimal_digits i 0 h).1
    revert this
    decide
  have hname : cstr (numbered i).cFileName = decimal i := cstr_of_not_mem _ hz
  have hdot : (charByte '.') ∉ decimal i := by
    intro h
    have := (decimal_digits i _ h).1
    revert this
    decide
  unfold properName
  rw [hname]
  constructor
  · intro h
    apply hdot
    rw [h]
    decide
  · intro h
    apply hdot
    rw [h]
    decide

theorem emitted_length_eq (buf : List Byte) (es : List WIN32_FIND_DATA) :
    (emitted buf es).length = (es.filter (fun fd => decide (properName fd))).length := by
  rw [← filter_notDot_eq, ← emitted_fst buf es, List.length_map]

theorem bigDir_filter :
    (bigDir.filter (fun fd => decide (properName fd))).length = 2147483648 := by
  have hall : bigDir.filter (fun fd => decide (properName fd)) = bigDir := by
    rw [List.filter_eq_self]
    intro fd hfd
    unfold bigDir at hfd
    obtain ⟨i, _, rfl⟩ := List.mem_map.mp hfd
    exact decide_eq_true (properName_numbered i)
  rw [hall]
  unfold bigDir
  rw [List.length_map, List.length_range]

theorem emitted_snoc (buf : List Byte) (pre : List WIN32_FIND_DATA) (fd : WIN32_FIND_DATA)
    (hk : notDotEntry fd = true) :
    emitted buf (pre ++ [fd]) =
      emitted buf pre ++
        [(fd, GetFileOwner fd.owner (pre.foldl loopBody (initState buf)).ownerName 256)] := by
  rw [emitted_append]
  simp [emitted, hk]

theorem intercalate_snoc (sep x : List Byte) (xs : List (List Byte)) (h : xs ≠ []) :
    sep.intercalate (xs ++ [x]) = sep.intercalate xs ++ sep ++ x := by
  cases xs with
  | nil => exact absurd rfl h
  | cons y ys =>
    rw [List.cons_append, intercalate_cons, intercalate_cons]
    simp

theorem main_past_int_max (buf : List Byte) (pre : List WIN32_FIND_DATA) (fd : WIN32_FIND_DATA)
    (hk : notDotEntry fd = true) (hlen : (emitted buf pre).length = 2147483648) :
    (main buf (pre ++ [fd])).1 =
      bytes "\x7b\n\"files\": [\n" ++
        (bytes ",\n").intercalate ((emitted buf pre).map objectText) ++
        objectText (fd, GetFileOwner fd.owner (pre.foldl loopBody (initState buf)).ownerName 256)
        ++ footer (-2147483647) := by
  have hc : toInt (0 + 2147483648) = -2147483648 := by decide
  have hf : toInt (2147483648 + 1) = -2147483647 := by decide
  have hl : ((emitted buf pre).map objectText).length = 2147483648 := by
    rw [List.length_map, hlen]
  have h0 : toInt 0 = 0 := by decide
  rw [main_eq, emitted_snoc buf pre fd hk, List.map_append, arrayText_append _ _ 0 h0,
    arrayText_zero _ (by omega), hl, List.length_append, hlen]
  have hc2 : toInt (0 + ((2147483648 : Nat) : Int)) = -2147483648 := hc
  have hf2 : toInt (((2147483648 + [(fd, GetFileOwner fd.owner
      (pre.foldl loopBody (initState buf)).ownerName 256)].length : Nat) : Int)) =
      -2147483647 := hf
  rw [hc2, hf2]
  simp [arrayText]

/-- C5 fails for a directory of 2147483648 (2^31) files named 0, 1, 2, and so
on: all of them are written as objects, and the `int` counter, having
overflowed, prints total_files as -2147483648. -/
theorem C5_counterexample :
    (bigDir.filter (fun fd => decide (properName fd))).length = 2147483648 ∧
    ((emitted stackGarbage bigDir).map objectText).length = 2147483648 ∧
    (main stackGarbage bigDir).1 =
      bytes "\x7b\n\"files\": [\n" ++
        (bytes ",\n").intercalate ((emitted stackGarbage bigDir).map objectText) ++
        bytes "\n],\n\"total_files\": -2147483648\n\x7d\n" ∧
    (main stackGarbage bigDir).1 ≠
      document ((emitted stackGarbage bigDir).map objectText)
        ((emitted stackGarbage bigDir).map objectText).length := by
  have hlen : (emitted stackGarbage bigDir).length = 2147483648 := by
    rw [emitted_length_eq, bigDir_filter]
  have hobj : ((emitted stackGarbage bigDir).map objectText).length = 2147483648 := by
    rw [List.length_map, hlen]
  have hc : toInt ((2147483648 : Nat) : Int) = -2147483648 := by decide
  have hfoot : footer (-2147483648) = bytes "\n],\n\"total_files\": -2147483648\n\x7d\n" := by
    decide
  have hout : (main stackGarbage bigDir).1 =
      bytes "\x7b\n\"files\": [\n" ++
        (bytes ",\n").intercalate ((emitted stackGarbage bigDir).map objectText) ++
        bytes "\n],\n\"total_files\": -2147483648\n\x7d\n" := by
    rw [main_eq, arrayText_zero _ (by omega), hlen, hc, hfoot]
  refine ⟨bigDir_filter, hobj, hout, ?_⟩
  rw [hout, hobj]
  intro h
  unfold document at h
  simp only [List.append_assoc] at h
  have h2 := List.append_cancel_left (List.append_cancel_left h)
  revert h2
  decide

/-- C5 as amended: for every enumeration with fewer than 2147483648 (2^31)
records named neither "." nor "..", the output is a document whose
total_files value is the decimal rendering of the number of entry objects in
its files array, and this number is the number of those records. -/
theorem C5_total_files_counts_objects (buf : List Byte) (es : List WIN32_FIND_DATA)
    (hfew : (es.filter (fun fd => decide (properName fd))).length < 2147483648) :
    (main buf es).1 =
      document ((emitted buf es).map objectText) ((emitted buf es).map objectText).length ∧
    ((emitted buf es).map objectText).length =
      (es.filter (fun fd => decide (properName fd))).length := by
  have hlen := emitted_length_eq buf es
  constructor
  · rw [main_eq_document buf es (by omega), List.length_map]
  · rw [List.length_map, hlen]

/-- Witness of C5 as amended: `note.txt` and `Logs` between "." and "..": two
objects, total_files 2. -/
theorem C5_total_files_counts_objects_witness :
    ([named ".", noteTxt, named "..", logsDir].filter
      (fun fd => decide (properName fd))).length < 2147483648 ∧
    (main stackGarbage [named ".", noteTxt, named "..", logsDir]).1 =
      document ((emitted stackGarbage [named ".", noteTxt, named "..", logsDir]).map objectText)
        ((emitted stackGarbage [named ".", noteTxt, named "..", logsDir]).map
          objectText).length ∧
    ((emitted stackGarbage [named ".", noteTxt, named "..", logsDir]).map objectText).length =
      ([named ".", noteTxt, named "..", logsDir].filter
        (fun fd => decide (properName fd))).length :=
  ⟨by decide, C5_total_files_counts_objects stackGarbage
    [named ".", noteTxt, named "..", logsDir] (by decide)⟩

theorem missing_separator_ne (h f o : List Byte) (xs : List (List Byte)) (hne : xs ≠ []) :
    h ++ (bytes ",\n").intercalate xs ++ o ++ f ≠
      h ++ ((xs ++ [o]).intersperse (bytes ",\n")).flatten ++ f := by
  have hi : ((xs ++ [o]).intersperse (bytes ",\n")).flatten =
      (bytes ",\n").intercalate xs ++ bytes ",\n" ++ o := intercalate_snoc _ _ _ hne
  have hsep : (bytes ",\n").length = 2 := by decide
  rw [hi]
  intro e
  have hl := congrArg List.length e
  simp only [List.length_append, hsep] at hl
  omega

/-- C12 fails for a directory of 2147483649 (2^31 + 1) files: before the last
object the `int` counter has overflowed to a negative value, so no separator
is written between the last two objects. -/
theorem C12_counterexample :
    (emitted stackGarbage (bigDir ++ [noteTxt])).length = 2147483649 ∧
    (main stackGarbage (bigDir ++ [noteTxt])).1 =
      bytes "\x7b\n\"files\": [\n" ++
        (bytes ",\n").intercalate ((emitted stackGarbage bigDir).map objectText) ++
        objectText (noteTxt,
          GetFileOwner noteTxt.owner (bigDir.foldl loopBody (initState stackGarbage)).ownerName
            256) ++
        footer (-2147483647) ∧
    (main stackGarbage (bigDir ++ [noteTxt])).1 ≠
      bytes "\x7b\n\"files\": [\n" ++
        (((emitted stackGarbage (bigDir ++ [noteTxt])).map objectText).intersperse
          (bytes ",\n")).flatten ++
        footer (-2147483647) := by
  have hk : notDotEntry noteTxt = true := by decide
  have hlen : (emitted stackGarbage bigDir).length = 2147483648 := by
    rw [emitted_length_eq, bigDir_filter]
  have hout := main_past_int_max stackGarbage bigDir noteTxt hk hlen
  have hne : (emitted stackGarbage bigDir).map objectText ≠ [] := by
    intro h
    have := congrArg List.length h
    rw [List.length_map, hlen] at this
    exact absurd this (by decide)
  refine ⟨?_, hout, ?_⟩
  · rw [emitted_snoc stackGarbage bigDir noteTxt hk, List.length_append, hlen]
    rfl
  · rw [hout, emitted_snoc stackGarbage bigDir noteTxt hk, List.map_append, List.map_cons,
      List.map_nil]
    exact missing_separator_ne _ _ _ _ hne

/-- C12 as amended: for every enumeration with at most 2147483648 (2^31)
records named neither "." nor "..", the text between the opening of the
files array and its closing is the written objects with the separator (a
comma and a newline) between consecutive objects: the separator occurs once
less than there are objects (not at all when there is none), the text begins
with the first object and ends with the last one. -/
theorem C12_element_separators (buf : List Byte) (es : List WIN32_FIND_DATA)
    (hfew : (es.filter (fun fd => decide (properName fd))).length ≤ 2147483648) :
    (main buf es).1 =
      bytes "\x7b\n\"files\": [\n" ++
        (((emitted buf es).map objectText).intersperse (bytes ",\n")).flatten ++
        bytes "\n],\n\"total_files\": " ++ fmt_d (toInt ((emitted buf es).length : Int)) ++
        bytes "\n\x7d\n" ∧
    (((emitted buf es).map objectText).intersperse (bytes ",\n")).count (bytes ",\n") =
      (emitted buf es).length - 1 ∧
    (((emitted buf es).map objectText).intersperse (bytes ",\n")).head? =
      ((emitted buf es).map objectText).head? ∧
    (((emitted buf es).map objectText).intersperse (bytes ",\n")).getLast? =
      ((emitted buf es).map objectText).getLast? ∧
    (emitted buf es).length = (es.filter (fun fd => decide (properName fd))).length := by
  have hlen := emitted_length_eq buf es
  refine ⟨?_, ?_, intersperse_head _ _, intersperse_getLast _ _, hlen⟩
  · have hi : (bytes ",\n").intercalate ((emitted buf es).map objectText) =
        (((emitted buf es).map objectText).intersperse (bytes ",\n")).flatten := rfl
    rw [main_eq, arrayText_zero _ (by rw [List.length_map]; omega), hi]
    simp [footer]
  · rw [intersperse_count, List.length_map]
    intro x hx
    obtain ⟨p, _, rfl⟩ := List.mem_map.mp hx
    exact objectText_ne_separator p

/-- Witness of C12 as amended: with "." first, ".." between and "." last, the
two written objects are separated by one separator. -/
theorem C12_element_separators_witness :
    ([named ".", noteTxt, named "..", logsDir, named "."].filter
      (fun fd => decide (properName fd))).length ≤ 2147483648 ∧
    (((emitted stackGarbage [named ".", noteTxt, named "..", logsDir, named "."]).map
      objectText).intersperse (bytes ",\n")).count (bytes ",\n") = 1 := by
  have hf : ([named ".", noteTxt, named "..", logsDir, named "."].filter
      (fun fd => decide (properName fd))).length ≤ 2147483648 := by decide
  have h := (C12_element_separators stackGarbage
    [named ".", noteTxt, named "..", logsDir, named "."] hf).2.1
  have hl : (emitted stackGarbage
    [named ".", noteTxt, named "..", logsDir, named "."]).length = 2 := by decide
  rw [hl] at h
  exact ⟨hf, h⟩

/-! ## Properties of the attribute flags -/

/-- C14: for every attribute bitset, the three lines of the attributes object
carry for hidden, system and readonly the value "true" when bit 1 (0x2), bit 2
(0x4), bit 0 (0x1) is set and "false" when it is not, and the type line
carries "directory" when bit 4 (0x10) is set and "file" when it is not; each
written value is given by its own bit, so two bitsets that agree on these
bits give the same lines whatever their other bits. -/
theorem C14_attribute_flags (fd : WIN32_FIND_DATA) :
    attributeLines fd =
      bytes "    \"attributes\": \x7b\n" ++
      bytes "      \"hidden\": " ++
        (if fd.dwFileAttributes.testBit 1 then bytes "true" else bytes "false") ++
        bytes ",\n" ++
      bytes "      \"system\": " ++
        (if fd.dwFileAttributes.testBit 2 then bytes "true" else bytes "false") ++
        bytes ",\n" ++
      bytes "      \"readonly\": " ++
        (if fd.dwFileAttributes.testBit 0 then bytes "true" else bytes "false") ++
        bytes "\n" ++
      bytes "    \x7d\n" ++
      bytes "  \x7d" ∧
    typeLine fd =
      bytes "    \"type\": \"" ++
        (if fd.dwFileAttributes.testBit 4 then bytes "directory" else bytes "file") ++
        bytes "\",\n" ∧
    flagText fd.dwFileAttributes FILE_ATTRIBUTE_HIDDEN =
      (if fd.dwFileAttributes.testBit 1 then bytes "true" else bytes "false") ∧
    flagText fd.dwFileAttributes FILE_ATTRIBUTE_SYSTEM =
      (if fd.dwFileAttributes.testBit 2 then bytes "true" else bytes "false") ∧
    flagText fd.dwFileAttributes FILE_ATTRIBUTE_READONLY =
      (if fd.dwFileAttributes.testBit 0 then bytes "true" else bytes "false") ∧
    typeText fd =
      (if fd.dwFileAttributes.testBit 4 then bytes "directory" else bytes "file") ∧
    (∀ other : WIN32_FIND_DATA,
      (other.dwFileAttributes.testBit 1 = fd.dwFileAttributes.testBit 1 →
        other.dwFileAttributes.testBit 2 = fd.dwFileAttributes.testBit 2 →
        other.dwFileAttributes.testBit 0 = fd.dwFileAttributes.testBit 0 →
        attributeLines other = attributeLines fd) ∧
      (other.dwFileAttributes.testBit 4 = fd.dwFileAttributes.testBit 4 →
        typeLine other = typeLine fd) ∧
      (other.dwFileAttributes.testBit 1 = fd.dwFileAttributes.testBit 1 →
        flagText other.dwFileAttributes FILE_ATTRIBUTE_HIDDEN =
          flagText fd.dwFileAttributes FILE_ATTRIBUTE_HIDDEN) ∧
      (other.dwFileAttributes.testBit 2 = fd.dwFileAttributes.testBit 2 →
        flagText other.dwFileAttributes FILE_ATTRIBUTE_SYSTEM =
          flagText fd.dwFileAttributes FILE_ATTRIBUTE_SYSTEM) ∧
      (other.dwFileAttributes.testBit 0 = fd.dwFileAttributes.testBit 0 →
        flagText other.dwFileAttributes FILE_ATTRIBUTE_READONLY =
          flagText fd.dwFileAttributes FILE_ATTRIBUTE_READONLY)) := by
  have hH : ∀ a : Nat, flagText a FILE_ATTRIBUTE_HIDDEN =
      if a.testBit 1 then bytes "true" else bytes "false" := fun a => flagText_eq a 1
  have hS : ∀ a : Nat, flagText a FILE_ATTRIBUTE_SYSTEM =
      if a.testBit 2 then bytes "true" else bytes "false" := fun a => flagText_eq a 2
  have hR : ∀ a : Nat, flagText a FILE_ATTRIBUTE_READONLY =
      if a.testBit 0 then bytes "true" else bytes "false" := fun a => flagText_eq a 0
  have hA : ∀ e : WIN32_FIND_DATA, attributeLines e =
      bytes "    \"attributes\": \x7b\n" ++
      bytes "      \"hidden\": " ++
        (if e.dwFileAttributes.testBit 1 then bytes "true" else bytes "false") ++
        bytes ",\n" ++
      bytes "      \"system\": " ++
        (if e.dwFileAttributes.testBit 2 then bytes "true" else bytes "false") ++
        bytes ",\n" ++
      bytes "      \"readonly\": " ++
        (if e.dwFileAttributes.testBit 0 then bytes "true" else bytes "false") ++
        bytes "\n" ++
      bytes "    \x7d\n" ++
      bytes "  \x7d" := by
    intro e
    unfold attributeLines
    rw [hH, hS, hR]
  have hT : ∀ e : WIN32_FIND_DATA, typeLine e =
      bytes "    \"type\": \"" ++
        (if e.dwFileAttributes.testBit 4 then bytes "directory" else bytes "file") ++
        bytes "\",\n" := by
    intro e
    unfold typeLine
    rw [typeText_eq]
  refine ⟨hA fd, hT fd, hH _, hS _, hR _, typeText_eq fd, fun other => ⟨?_, ?_, ?_, ?_, ?_⟩⟩
  · intro h1 h2 h0; rw [hA, hA, h1, h2, h0]
  · intro h; rw [hT, hT, h]
  · intro h; rw [hH, hH, h]
  · intro h; rw [hS, hS, h]
  · intro h; rw [hR, hR, h]

/-- Witness of C14: a hidden read-only file with further bits set (0x2823) and
a file with the bits hidden and read-only alone (0x3) get the same lines of
the attributes object, with hidden and readonly true and system false. -/
theorem C14_attribute_flags_witness :
    attributeLines { noteTxt with dwFileAttributes := 0x3 } =
      attributeLines { noteTxt with dwFileAttributes := 0x2823 } ∧
    attributeLines { noteTxt with dwFileAttributes := 0x2823 } =
      bytes "    \"attributes\": \x7b\n      \"hidden\": true,\n      \"system\": false,\n      \"readonly\": true\n    \x7d\n  \x7d" := by
  refine ⟨((C14_attribute_flags { noteTxt with dwFileAttributes := 0x2823 }).2.2.2.2.2.2
    { noteTxt with dwFileAttributes := 0x3 }).1 (by decide) (by decide) (by decide), ?_⟩
  rw [(C14_attribute_flags { noteTxt with dwFileAttributes := 0x2823 }).1]
  decide

end FileLister
